import Mathlib

/-!
Verification development for the reduction scheduling subsystem
(`csrc/scheduler/reduction_utils.cpp`).  The data model and the
operations are shallowly embedded: tensor views are lists of iteration
domains, axis splits and parallelizations are list surgeries, and the
fallible scheduler entry points return `Except String`.
-/

namespace ReductionUtils

/-- Parallel assignment of an axis (`ParallelType` in the source).
`BID*` are the per-grid hardware dimensions (blockIdx), `TID*` the
per-block hardware dimensions (threadIdx). -/
inductive ParallelType where
  | Serial
  | BIDx
  | BIDy
  | BIDz
  | TIDx
  | TIDy
  | TIDz
  | Vectorize
  | MisalignedVectorize
  | Unroll
  | Unswitch
  | Group
  deriving DecidableEq, Repr, Fintype

/-- Translation of `isParallelTypeBlockDim`: the grid (blockIdx) dimensions. -/
def isParallelTypeBlockDim (pt : ParallelType) : Bool :=
  pt == ParallelType.BIDx || pt == ParallelType.BIDy || pt == ParallelType.BIDz

/-- Translation of `isParallelTypeThreadDim`: the block (threadIdx) dimensions. -/
def isParallelTypeThreadDim (pt : ParallelType) : Bool :=
  pt == ParallelType.TIDx || pt == ParallelType.TIDy || pt == ParallelType.TIDz

/-- Translation of `isParallelTypeThread`: any hardware dimension. -/
def isParallelTypeThread (pt : ParallelType) : Bool :=
  isParallelTypeBlockDim pt || isParallelTypeThreadDim pt

/-- Extent expression of an axis.  `lit` is an immediate integer
constant, `sym` a symbolic input extent, `pdim` the named scalar for a
launch dimension (`NamedScalar::getParallelDim`), and `cdiv` the
`ceilDiv` expression produced by an axis split. -/
inductive ExtentE where
  | lit (n : Nat)
  | sym (s : Nat)
  | pdim (pt : ParallelType)
  | cdiv (a b : ExtentE)
  deriving DecidableEq, Repr

/-- Translation of `Val::isConstScalar`: the expression only involves
immediate constants. -/
def ExtentE.isConstScalar : ExtentE → Bool
  | ExtentE.lit _ => true
  | ExtentE.sym _ => false
  | ExtentE.pdim _ => false
  | ExtentE.cdiv a b => a.isConstScalar && b.isConstScalar

/-- Translation of `Val::isOneInt`: the value is the immediate integer
constant one (a compound expression is not an immediate). -/
def ExtentE.isOneInt : ExtentE → Bool
  | ExtentE.lit 1 => true
  | _ => false

/-- One axis of a tensor view (`IterDomain` in the source). -/
structure IterDomain where
  isReduction : Bool
  isBroadcast : Bool
  isImplicitBroadcast : Bool
  extent : ExtentE
  parallelType : ParallelType
  isRFactorProduct : Bool
  padToWarp : Bool
  deriving DecidableEq, Repr

/-- Default axis used only as the out-of-range fallback of `List.getD`. -/
def dfltId : IterDomain :=
  { isReduction := false
    isBroadcast := false
    isImplicitBroadcast := false
    extent := ExtentE.lit 0
    parallelType := ParallelType.Serial
    isRFactorProduct := false
    padToWarp := false }

/-- Translation of `IterDomain::isThread`: parallelized by any hardware
dimension. -/
def IterDomain.isThread (id : IterDomain) : Bool :=
  isParallelTypeThread id.parallelType

/-- Translation of `IterDomain::isBlockDim`. -/
def IterDomain.isBlockDim (id : IterDomain) : Bool :=
  isParallelTypeBlockDim id.parallelType

/-- Translation of `IterDomain::isThreadDim`. -/
def IterDomain.isThreadDim (id : IterDomain) : Bool :=
  isParallelTypeThreadDim id.parallelType

/-- Property of a parallel type of being one of the unrolled kinds, as
tested repeatedly by `idPos`. -/
def isUnrolledLike (pt : ParallelType) : Bool :=
  pt == ParallelType.Unroll || pt == ParallelType.Vectorize ||
    pt == ParallelType.MisalignedVectorize

/-- Translation of `idPos` (anonymous namespace of
`reduction_utils.cpp`): converts the properties of an axis to a numeric
sort key.  The source decrements from `INT_MAX` on the inner side and
increments from `INT_MIN` on the outer side; the exact resulting
constants are written out here. -/
def idPos (id : IterDomain) : Int :=
  if id.isReduction && isUnrolledLike id.parallelType then 2147483647
  else if id.isReduction && id.extent.isConstScalar then 2147483646
  else if id.isReduction && id.parallelType == ParallelType.Unswitch then 2147483645
  else if id.isReduction && id.isThread then 2147483644
  else if id.isBroadcast || id.isImplicitBroadcast then 2147483643
  else if !id.isReduction && isUnrolledLike id.parallelType then 2147483642
  else if !id.isReduction && id.parallelType == ParallelType.Unswitch then 2147483641
  else if id.isReduction && !id.extent.isConstScalar then 2147483640
  else if !id.isReduction && id.isBlockDim then -2147483648
  else if !id.isReduction && id.isThreadDim then -2147483647
  else if !id.isReduction && id.extent.isConstScalar then -2147483646
  else if !id.isReduction && !id.extent.isConstScalar then -2147483645
  else 0

/-- Contract of `std::sort(domain.begin(), domain.end(), id_lt())` as
used by `sortAndRFactor`: the output is a permutation of the input that
is sorted with respect to the comparator `idPos · < idPos ·` (for its
induced weak ordering this is equivalent to being pairwise
nondecreasing in `idPos`).  `std::sort` guarantees nothing beyond this;
in particular it is not stable. -/
def stdSortSpec (dom out : List IterDomain) : Prop :=
  out.Perm dom ∧ out.Pairwise (fun a b => idPos a ≤ idPos b)

instance (dom out : List IterDomain) : Decidable (stdSortSpec dom out) := by
  unfold stdSortSpec
  exact instDecidableAnd

/-- The section 4.1 ordering key of the specification, written as a rank
(0 = innermost class) over the classes in the order the specification
lists them: reduction+unroll-or-vectorize, reduction+constant-extent,
reduction+unswitched, reduction+hardware-thread-parallel, broadcast,
iteration+unroll-or-vectorize, iteration+unswitched,
reduction+symbolic-extent, (boundary), iteration+hardware-block-parallel,
iteration+hardware-thread-parallel, iteration+constant-extent,
iteration+symbolic-extent.  The guards are the same row guards the code
uses, so an axis's class is well defined. -/
def specClassRank (id : IterDomain) : Nat :=
  if id.isReduction && isUnrolledLike id.parallelType then 0
  else if id.isReduction && id.extent.isConstScalar then 1
  else if id.isReduction && id.parallelType == ParallelType.Unswitch then 2
  else if id.isReduction && id.isThread then 3
  else if id.isBroadcast || id.isImplicitBroadcast then 4
  else if !id.isReduction && isUnrolledLike id.parallelType then 5
  else if !id.isReduction && id.parallelType == ParallelType.Unswitch then 6
  else if id.isReduction && !id.extent.isConstScalar then 7
  else if !id.isReduction && id.isBlockDim then 8
  else if !id.isReduction && id.isThreadDim then 9
  else if !id.isReduction && id.extent.isConstScalar then 10
  else if !id.isReduction && !id.extent.isConstScalar then 11
  else 12

/-- The corrected ordering key (0 = innermost class): identical to
`specClassRank` on the eight classes before the boundary, but with the
four iteration classes after the boundary in the reverse order —
iteration+symbolic-extent is the innermost of that group and
iteration+hardware-block-parallel the outermost, as `idPos` actually
ranks them. -/
def amendedClassRank (id : IterDomain) : Nat :=
  if id.isReduction && isUnrolledLike id.parallelType then 0
  else if id.isReduction && id.extent.isConstScalar then 1
  else if id.isReduction && id.parallelType == ParallelType.Unswitch then 2
  else if id.isReduction && id.isThread then 3
  else if id.isBroadcast || id.isImplicitBroadcast then 4
  else if !id.isReduction && isUnrolledLike id.parallelType then 5
  else if !id.isReduction && id.parallelType == ParallelType.Unswitch then 6
  else if id.isReduction && !id.extent.isConstScalar then 7
  else if !id.isReduction && id.isBlockDim then 11
  else if !id.isReduction && id.isThreadDim then 10
  else if !id.isReduction && id.extent.isConstScalar then 9
  else if !id.isReduction && !id.extent.isConstScalar then 8
  else 12

/-- Numeric value of each rank of the corrected key, i.e. the `idPos`
value of every axis of that class (rank 12 is the unreachable
fall-through of the guard cascade). -/
def rankPos : Nat → Int
  | 0 => 2147483647
  | 1 => 2147483646
  | 2 => 2147483645
  | 3 => 2147483644
  | 4 => 2147483643
  | 5 => 2147483642
  | 6 => 2147483641
  | 7 => 2147483640
  | 8 => -2147483645
  | 9 => -2147483646
  | 10 => -2147483647
  | 11 => -2147483648
  | _ => 0

/-- Claim C1 as stated, first half: for any node and any output the
sort may produce, an axis whose specification class strictly precedes
another axis's class ends up strictly more inner (a larger axis index)
than that other axis. -/
def claimC1Strict : Prop :=
  ∀ (dom out : List IterDomain), stdSortSpec dom out →
    ∀ (ia ib : Nat) (ha : ia < out.length) (hb : ib < out.length),
      specClassRank (out.get ⟨ia, ha⟩) < specClassRank (out.get ⟨ib, hb⟩) →
        ib < ia

/-- Claim C1 as stated, second half: axes of the same class keep their
declared relative order through the reorder (ties broken by declared
order), in any output the sort may produce. -/
def claimC1Ties : Prop :=
  ∀ (dom out : List IterDomain), stdSortSpec dom out →
    ∀ (i j : Nat) (hi : i < dom.length) (hj : j < dom.length), i < j →
      specClassRank (dom.get ⟨i, hi⟩) = specClassRank (dom.get ⟨j, hj⟩) →
        out.indexOf (dom.get ⟨i, hi⟩) < out.indexOf (dom.get ⟨j, hj⟩)

/-- Concrete axis: iteration, hardware-block-parallel (BIDx), symbolic
extent. -/
def cexIterBlock : IterDomain :=
  { isReduction := false
    isBroadcast := false
    isImplicitBroadcast := false
    extent := ExtentE.sym 0
    parallelType := ParallelType.BIDx
    isRFactorProduct := false
    padToWarp := false }

/-- Concrete axis: iteration, serial, symbolic extent. -/
def cexIterSym : IterDomain :=
  { isReduction := false
    isBroadcast := false
    isImplicitBroadcast := false
    extent := ExtentE.sym 1
    parallelType := ParallelType.Serial
    isRFactorProduct := false
    padToWarp := false }

/-- Concrete axis: iteration, serial, symbolic extent (distinct from
`cexIterSym` only by the symbol, so same class). -/
def cexIterSym2 : IterDomain :=
  { isReduction := false
    isBroadcast := false
    isImplicitBroadcast := false
    extent := ExtentE.sym 2
    parallelType := ParallelType.Serial
    isRFactorProduct := false
    padToWarp := false }

/-- A tensor view, reduced to the data the scheduler manipulates: its
ordered axis list. -/
structure TensorView where
  domain : List IterDomain
  deriving DecidableEq, Repr

/-- Translation of `TensorView::nDims`. -/
def TensorView.nDims (tv : TensorView) : Nat := tv.domain.length

/-- The outer axis produced by `IterDomain::split`: it keeps the axis
kind of the split axis, starts serial and unpadded, and for an inner
split gets the `ceilDiv` of the old extent by the factor (for an outer
split, the factor itself). -/
def splitOuterId (id : IterDomain) (factor : ExtentE) (inner_split : Bool) : IterDomain :=
  { isReduction := id.isReduction
    isBroadcast := id.isBroadcast
    isImplicitBroadcast := id.isImplicitBroadcast
    extent := if inner_split then ExtentE.cdiv id.extent factor else factor
    parallelType := ParallelType.Serial
    isRFactorProduct := id.isRFactorProduct
    padToWarp := false }

/-- The inner axis produced by `IterDomain::split`: for an inner split
it gets the factor as extent (for an outer split, the `ceilDiv`). -/
def splitInnerId (id : IterDomain) (factor : ExtentE) (inner_split : Bool) : IterDomain :=
  { isReduction := id.isReduction
    isBroadcast := id.isBroadcast
    isImplicitBroadcast := id.isImplicitBroadcast
    extent := if inner_split then factor else ExtentE.cdiv id.extent factor
    parallelType := ParallelType.Serial
    isRFactorProduct := id.isRFactorProduct
    padToWarp := false }

/-- The axis with its parallel assignment replaced. -/
def setPT (id : IterDomain) (pt : ParallelType) : IterDomain :=
  { id with parallelType := pt }

/-- The axis with its warp padding set. -/
def setPad (id : IterDomain) : IterDomain :=
  { id with padToWarp := true }

/-- Translation of `TensorView::split(axis, factor, inner_split)`: the
axis at the given position is replaced by an outer/inner pair.  An
out-of-range axis is a fatal error in the source. -/
def TensorView.split (tv : TensorView) (axis : Nat) (factor : ExtentE)
    (inner_split : Bool := true) : Except String TensorView :=
  if h : axis < tv.domain.length then
    let id := tv.domain.get ⟨axis, h⟩
    Except.ok ⟨tv.domain.take axis ++ splitOuterId id factor inner_split ::
      splitInnerId id factor inner_split :: tv.domain.drop (axis + 1)⟩
  else Except.error ("split axis out of range")

/-- Translation of `tv->axis(i)->parallelize(pt)`. -/
def TensorView.parallelizeAxis (tv : TensorView) (axis : Nat) (pt : ParallelType) :
    Except String TensorView :=
  if h : axis < tv.domain.length then
    Except.ok ⟨tv.domain.take axis ++ setPT (tv.domain.get ⟨axis, h⟩) pt ::
      tv.domain.drop (axis + 1)⟩
  else Except.error ("parallelize axis out of range")

/-- Translation of `tv->axis(i)->padToMultipleOfWarp()`. -/
def TensorView.padAxisToWarp (tv : TensorView) (axis : Nat) : Except String TensorView :=
  if h : axis < tv.domain.length then
    Except.ok ⟨tv.domain.take axis ++ setPad (tv.domain.get ⟨axis, h⟩) ::
      tv.domain.drop (axis + 1)⟩
  else Except.error ("pad axis out of range")

/-- Translation of the `vectorize` lambda of `scheduleReductionTV`. -/
def vectorizeOp (tv : TensorView) (axis : Nat) (factor : Nat) : Except String TensorView := do
  let tv ← tv.split axis (ExtentE.lit factor)
  tv.parallelizeAxis (axis + 1) ParallelType.Vectorize

/-- Translation of the `inner_parallel` lambda of `scheduleReductionTV`. -/
def innerParallelOp (tv : TensorView) (axis : Nat) (pt : ParallelType) :
    Except String TensorView := do
  let tv ← tv.split axis (ExtentE.pdim pt)
  tv.parallelizeAxis (axis + 1) pt

/-- Translation of the `inner_parallel_static` lambda of
`scheduleReductionTV`. -/
def innerParallelStaticOp (tv : TensorView) (axis : Nat) (pt : ParallelType)
    (factor : Nat) : Except String TensorView := do
  let tv ← tv.split axis (ExtentE.lit factor)
  tv.parallelizeAxis (axis + 1) pt

/-- Translation of the `inner_unswitch` lambda of `scheduleReductionTV`. -/
def innerUnswitchOp (tv : TensorView) (axis : Nat) : Except String TensorView := do
  let tv ← tv.split axis (ExtentE.lit 1)
  tv.parallelizeAxis (axis + 1) ParallelType.Unswitch

/-- Translation of the `inner_unroll` lambda of `scheduleReductionTV`. -/
def innerUnrollOp (tv : TensorView) (axis : Nat) (factor : Nat) :
    Except String TensorView := do
  let tv ← tv.split axis (ExtentE.lit factor)
  tv.parallelizeAxis (axis + 1) ParallelType.Unroll

/-- Translation of the `outer_parallel` lambda of `scheduleReductionTV`. -/
def outerParallelOp (tv : TensorView) (axis : Nat) (pt : ParallelType) :
    Except String TensorView := do
  let tv ← tv.split axis (ExtentE.pdim pt) false
  tv.parallelizeAxis axis pt

/-- Translation of the `outer_unswitch` lambda of `scheduleReductionTV`. -/
def outerUnswitchOp (tv : TensorView) (axis : Nat) : Except String TensorView := do
  let tv ← tv.split axis (ExtentE.lit 1) false
  tv.parallelizeAxis axis ParallelType.Unswitch

/-- Translation of the `outer_unroll` lambda of `scheduleReductionTV`. -/
def outerUnrollOp (tv : TensorView) (axis : Nat) (factor : Nat) :
    Except String TensorView := do
  let tv ← tv.split axis (ExtentE.lit factor) false
  tv.parallelizeAxis axis ParallelType.Unroll

/-- Launch parameter record (`LaunchParams`), reduced to the statically
chosen block dimensions read by the scheduler. -/
structure LaunchParams where
  bdimx : Nat
  bdimy : Nat
  deriving DecidableEq, Repr

/-- The scheduling parameter record (`ReductionParams`), read-only input
of the scheduler. -/
structure ReductionParams where
  fastest_dim : Bool
  persistent_kernel : Bool
  schedule_3D : Bool
  cross_block_inner_reduction : Bool
  cross_grid_inner_reduction : Bool
  split_grid_dim_inner_reduction : Bool
  vectorize_inner_reduction : Bool
  unroll_factor_inner_reduction : Nat
  batches_per_block_inner_reduction : Nat
  block_dim_inner_reduction : ParallelType
  grid_dim_inner_reduction : ParallelType
  pad_inner_reduction_to_warp : Bool
  cross_block_outer_reduction : Bool
  cross_grid_outer_reduction : Bool
  unroll_factor_outer_reduction : Nat
  batches_per_block_outer_reduction : Nat
  block_dim_outer_reduction : ParallelType
  grid_dim_outer_reduction : ParallelType
  multiple_reds_per_blk : Bool
  vectorize_iter_dom : Bool
  unroll_factor_iter_dom : Nat
  block_dim_iter_dom : ParallelType
  grid_dim_iter_dom : ParallelType
  split_grid_dim_iter_dom_outer : Bool
  split_grid_dim_iter_dom_inner : Bool
  static_bdimx : Bool
  static_bdimy : Bool
  lparams : LaunchParams
  deriving DecidableEq, Repr

/-- Modelled from the spec: `ReductionParams::isUnrolled` is declared
outside this repository's sources; per the specification an unrolled
schedule is one that requests an unroll (or vectorization, which uses
the same factors) on any of the three axis classes, i.e. some unroll
factor exceeds one. -/
def ReductionParams.isUnrolled (rp : ReductionParams) : Bool :=
  rp.unroll_factor_inner_reduction > 1 || rp.unroll_factor_iter_dom > 1 ||
    rp.unroll_factor_outer_reduction > 1

/-- Translation of the `is_outer_grid_persistence` condition of
`scheduleReductionTV` and `multiReductionInliner`. -/
def isOuterGridPersistence (rp : ReductionParams) : Bool :=
  rp.persistent_kernel && rp.cross_grid_inner_reduction && !rp.fastest_dim

/-- Translation of the inner-reduction block of `scheduleReductionTV`
(the `is_outer_grid_persistence`, persistent and non-persistent
branches), operating at the relative inner reduction axis. -/
def scheduleInnerReduction (rp : ReductionParams) (tv : TensorView)
    (inner_reduce_axis : Nat) : Except String TensorView :=
  if isOuterGridPersistence rp then
    if !rp.static_bdimy then Except.error ("blockDim.y must be static")
    else do
      let rax := inner_reduce_axis
      let tv ← innerParallelStaticOp tv rax rp.block_dim_inner_reduction rp.lparams.bdimy
      let tv ← tv.split rax (ExtentE.lit rp.batches_per_block_inner_reduction)
      let tv ← tv.parallelizeAxis rax rp.grid_dim_inner_reduction
      if rp.batches_per_block_inner_reduction == rp.unroll_factor_inner_reduction then
        outerUnswitchOp tv (rax + 1)
      else do
        let tv ← tv.split (rax + 1) (ExtentE.lit rp.unroll_factor_inner_reduction)
        outerUnswitchOp tv (rax + 2)
  else if rp.persistent_kernel then do
    let tv ← if rp.vectorize_inner_reduction then
        vectorizeOp tv inner_reduce_axis rp.unroll_factor_inner_reduction
      else pure tv
    let oi := inner_reduce_axis
    let s ← if rp.cross_grid_inner_reduction then do
        let tv ← outerParallelOp tv oi rp.grid_dim_inner_reduction
        pure (tv, oi + 1)
      else pure (tv, oi)
    let tv := s.1
    let oi := s.2
    let tv ← tv.split oi (ExtentE.lit rp.batches_per_block_inner_reduction) false
    let oi := oi + 1
    let tv ← outerUnswitchOp tv oi
    let oi := oi + 1
    let s ← if !rp.vectorize_inner_reduction && rp.unroll_factor_inner_reduction > 1 then do
        let tv ← outerUnrollOp tv oi rp.unroll_factor_inner_reduction
        pure (tv, oi + 1)
      else pure (tv, oi)
    let tv := s.1
    let oi := s.2
    let tv ← tv.parallelizeAxis oi rp.block_dim_inner_reduction
    if rp.pad_inner_reduction_to_warp then tv.padAxisToWarp oi else pure tv
  else do
    let tv ← if rp.vectorize_inner_reduction then
        vectorizeOp tv inner_reduce_axis rp.unroll_factor_inner_reduction
      else pure tv
    let tv ← if rp.cross_block_inner_reduction then do
        let tv ← innerParallelOp tv inner_reduce_axis rp.block_dim_inner_reduction
        if rp.pad_inner_reduction_to_warp then
          tv.padAxisToWarp (inner_reduce_axis + 1)
        else pure tv
      else pure tv
    let tv ← if !rp.vectorize_inner_reduction && rp.unroll_factor_inner_reduction > 1 then
        innerUnrollOp tv inner_reduce_axis rp.unroll_factor_inner_reduction
      else pure tv
    let tv ← innerUnswitchOp tv inner_reduce_axis
    if rp.cross_grid_inner_reduction then
      if rp.split_grid_dim_inner_reduction then
        outerParallelOp tv inner_reduce_axis rp.grid_dim_inner_reduction
      else tv.parallelizeAxis inner_reduce_axis rp.grid_dim_inner_reduction
    else pure tv

/-- Translation of the outer-reduction block of `scheduleReductionTV`
(only reached in 3D scheduling). -/
def scheduleOuterReduction (rp : ReductionParams) (tv : TensorView)
    (outer_reduce_axis : Nat) : Except String TensorView :=
  if rp.persistent_kernel then do
    let oi := outer_reduce_axis
    let s ← if rp.cross_grid_outer_reduction then do
        let tv ← outerParallelOp tv oi rp.grid_dim_outer_reduction
        pure (tv, oi + 1)
      else pure (tv, oi)
    let tv := s.1
    let oi := s.2
    let tv ← tv.split oi (ExtentE.lit rp.batches_per_block_outer_reduction) false
    let oi := oi + 1
    let s ← if rp.unroll_factor_outer_reduction > 1 then do
        let tv ← outerUnrollOp tv oi rp.unroll_factor_outer_reduction
        pure (tv, oi + 1)
      else pure (tv, oi)
    let tv := s.1
    let oi := s.2
    tv.parallelizeAxis oi rp.block_dim_outer_reduction
  else do
    let tv ← if rp.cross_block_outer_reduction then
        innerParallelOp tv outer_reduce_axis rp.block_dim_outer_reduction
      else pure tv
    let tv ← if rp.unroll_factor_outer_reduction > 1 then
        innerUnrollOp tv outer_reduce_axis rp.unroll_factor_outer_reduction
      else pure tv
    if rp.cross_grid_outer_reduction then
      outerParallelOp tv outer_reduce_axis rp.grid_dim_outer_reduction
    else pure tv

/-- Translation of the iteration-domain block of `scheduleReductionTV`
(the iteration axis is position 0). -/
def scheduleIterDomain (rp : ReductionParams) (tv : TensorView) :
    Except String TensorView := do
  let tv ← if rp.vectorize_iter_dom then
      vectorizeOp tv 0 rp.unroll_factor_iter_dom
    else pure tv
  let tv ← if isParallelTypeThread rp.block_dim_iter_dom then
      if isOuterGridPersistence rp then
        if !rp.static_bdimx then Except.error ("blockDim.x must be static")
        else innerParallelStaticOp tv 0 rp.block_dim_iter_dom rp.lparams.bdimx
      else innerParallelOp tv 0 rp.block_dim_iter_dom
    else pure tv
  let tv ← if !rp.vectorize_iter_dom && rp.unroll_factor_iter_dom > 1 then
      innerUnrollOp tv 0 rp.unroll_factor_iter_dom
    else pure tv
  let tv ← if rp.unroll_factor_iter_dom > 1 && !(isOuterGridPersistence rp) then
      innerUnswitchOp tv 0
    else pure tv
  if isParallelTypeThread rp.grid_dim_iter_dom then
    if rp.split_grid_dim_iter_dom_outer then
      outerParallelOp tv 0 rp.grid_dim_iter_dom
    else if rp.split_grid_dim_iter_dom_inner then
      innerParallelOp tv 0 rp.grid_dim_iter_dom
    else tv.parallelizeAxis 0 rp.grid_dim_iter_dom
  else pure tv

/-- Translation of the `domain_pos` map of `sortAndRFactor`: the map is
filled by a forward pass over the sorted domain, so on duplicate axes
the last position wins. -/
def domainPosFind (sorted : List IterDomain) (id : IterDomain) : Option Nat :=
  (List.range sorted.length).foldl
    (fun acc i => if sorted.getD i dfltId == id then some i else acc) none

/-- Translation of the reorder-map loop of `sortAndRFactor`: for every
old position, look the axis up in the sorted domain; a lookup failure is
the fatal "didn't reorder all axes" error, modelled as `none`. -/
def computeReorderMap : List IterDomain → List IterDomain → Option (List Nat)
  | [], _ => some []
  | id :: rest, sorted =>
    match domainPosFind sorted id, computeReorderMap rest sorted with
    | some k, some m => some (k :: m)
    | _, _ => none

/-- Position normalization of `TensorView::reorder`: a negative
position counts from the end. -/
def normalizePos (n : Nat) (p : Int) : Nat :=
  (if p < 0 then p + n else p).toNat

/-- Translation of `TensorView::reorder(old2new)`: mapped old positions
go to their mapped new positions, and the remaining old positions fill
the remaining new positions in their original relative order. -/
def reorderTv (tv : TensorView) (old2new : List (Int × Int)) : TensorView :=
  let n := tv.domain.length
  let m := old2new.map (fun q => (normalizePos n q.1, normalizePos n q.2))
  let unmappedOlds := (List.range n).filter (fun k => !(m.any (fun q => q.1 == k)))
  let unmappedNews := (List.range n).filter (fun k => !(m.any (fun q => q.2 == k)))
  let new2old : Nat → Nat := fun j =>
    match m.find? (fun q => q.2 == j) with
    | some q => q.1
    | none => unmappedOlds.getD (unmappedNews.indexOf j) j
  ⟨(List.range n).map (fun j => tv.domain.getD (new2old j) dfltId)⟩

/-- Translation of the rfactor-axis selection loop of `sortAndRFactor`:
walking the (already reordered) domain it counts the reduction axes and
collects the non-hardware-parallel ones, keeping a second list that
leaves out unswitched axes of extent one. -/
def collectRFactor : List IterDomain → Nat → List Nat × List Nat × Nat →
    List Nat × List Nat × Nat
  | [], _, acc => acc
  | id :: rest, i, (ra, ranu, rd) =>
    if !id.isReduction then collectRFactor rest (i + 1) (ra, ranu, rd)
    else if id.isThread then collectRFactor rest (i + 1) (ra, ranu, rd + 1)
    else
      let ranu' := if !(id.parallelType == ParallelType.Unswitch && id.extent.isOneInt)
        then ranu ++ [i] else ranu
      collectRFactor rest (i + 1) (ra ++ [i], ranu', rd + 1)

/-- The set of axis positions `sortAndRFactor` hands to `rfactorHelper`:
the collected candidates, with the no-unswitch variant chosen exactly
when every reduction axis was a candidate. -/
def rfactorAxesOf (domain : List IterDomain) : List Nat :=
  let acc := collectRFactor domain 0 ([], [], 0)
  if acc.2.2 == acc.1.length then acc.2.1 else acc.1

/-- Staging model of `ir_utils::rfactorHelper`: the producer returned to
the caller keeps the axis list, with the selected axes marked as rfactor
products. -/
def rfactorHelperModel (tv : TensorView) (axes : List Nat) : TensorView :=
  ⟨tv.domain.enum.map
    (fun p => if p.1 ∈ axes then { p.2 with isRFactorProduct := true } else p.2)⟩

/-- Translation of `sortAndRFactor`: sort the domain by `idPos` (the
model fixes one outcome of `std::sort`, a merge sort over the induced
weak order), compute and apply the old-to-new reorder, then rfactor the
selected reduction axes. -/
def sortAndRFactorModel (tv : TensorView) : Except String TensorView :=
  let sorted := tv.domain.mergeSort (fun a b => idPos a ≤ idPos b)
  match computeReorderMap tv.domain sorted with
  | none =>
    Except.error ("Error in schedule reorder, didn't reorder all axes in provided tv.")
  | some m =>
    let pairs := ((List.range tv.domain.length).zip m).map
      (fun q => ((q.1 : Int), (q.2 : Int)))
    let tv' := reorderTv tv pairs
    Except.ok (rfactorHelperModel tv' (rfactorAxesOf tv'.domain))

/-- Translation of the vectorized-axis scan of `scheduleReductionTV`
(outer grid persistence post-processing): record the position of the
vectorized axis, mapping it to the last position and every later axis
one position inward. -/
def vecScan : List IterDomain → Nat → Int → List (Int × Int) → Int × List (Int × Int)
  | [], _, pos, m => (pos, m)
  | id :: rest, i, pos, m =>
    if id.parallelType == ParallelType.Vectorize then
      vecScan rest (i + 1) (Int.ofNat i) (m ++ [((i : Int), -1)])
    else if pos ≥ 0 then
      vecScan rest (i + 1) pos (m ++ [((i : Int), (i : Int) - 1)])
    else vecScan rest (i + 1) pos m

/-- Translation of the outer-grid-persistence post-processing of
`scheduleReductionTV`: failing to find a vectorized axis is fatal,
otherwise the computed reorder is applied. -/
def vecReorderPhase (tv : TensorView) : Except String TensorView :=
  let s := vecScan tv.domain 0 (-1) []
  if s.1 == -1 then Except.error ("Vectorized ID not found")
  else Except.ok (reorderTv tv s.2)

/-- Translation of `scheduleReductionTV`: the five precondition
assertions, the three axis blocks, the sort-and-stage step, and the
outer-grid-persistence vectorized-axis correction. -/
def scheduleReductionTVModel (rp : ReductionParams) (tv : TensorView)
    (has_iter_axis : Bool) : Except String TensorView :=
  let iter_axis : Nat := 0
  let outer_reduce_axis : Nat := if rp.schedule_3D then 1 else 0
  let inner_reduce_axis : Nat :=
    if rp.schedule_3D then 2 else if has_iter_axis then 1 else 0
  if !(tv.nDims > max iter_axis (max outer_reduce_axis inner_reduce_axis)) then
    Except.error ("Issue in scheduling reduction tv, expecting more dimensions")
  else if rp.fastest_dim && rp.vectorize_iter_dom then
    Except.error ("Cannot vectorize iteration domain on inner reductions.")
  else if !rp.fastest_dim && rp.vectorize_inner_reduction then
    Except.error ("Cannot vectorize reduction domain on outer reductions.")
  else if rp.multiple_reds_per_blk && !has_iter_axis then
    Except.error ("Multiple reductions requires an iter domain, but one wasn't found.")
  else if rp.unroll_factor_iter_dom > 1 && !has_iter_axis then
    Except.error ("Unrolling on iter domain requires an iter domain.")
  else do
    let tv ← scheduleInnerReduction rp tv inner_reduce_axis
    let tv ← if rp.schedule_3D then scheduleOuterReduction rp tv outer_reduce_axis
      else pure tv
    let tv ← if has_iter_axis then scheduleIterDomain rp tv else pure tv
    let rf ← sortAndRFactorModel tv
    if isOuterGridPersistence rp then vecReorderPhase rf else pure rf

/-- Memory residency of a tensor view (`MemoryType`). -/
inductive MemoryType where
  | Local
  | Shared
  | Global
  deriving DecidableEq, Repr

/-- Graph-level view of a tensor for the propagation-and-inlining
driver: its identity, memory residency, axis list, the domains of the
broadcast operations consuming it, the identities of its producers,
whether its defining expression is a trivial copy (`UnaryOp` of kind
`Set`), and its sibling views (multi-output operators). -/
structure FTv where
  tvId : Nat
  memoryType : MemoryType
  domain : List IterDomain
  bcastUseDomains : List (List IterDomain)
  producers : List Nat
  defIsSet : Bool
  siblings : List Nat
  deriving DecidableEq, Repr

/-- Translation of the `reduction_parallel_types` bitmap collected by
`isGridAllreduce`: the block-dimension parallel types used by the
reduction axes of the view. -/
def reductionBlockParallelTypes (tv : FTv) : List ParallelType :=
  tv.domain.foldl
    (fun s id =>
      if id.isReduction && isParallelTypeBlockDim id.parallelType &&
          !(s.contains id.parallelType)
      then s ++ [id.parallelType] else s) []

/-- Translation of `isGridAllreduce`: only a Local tensor counts, and
some block-dimension parallel type of its reduction axes must also
parallelize an axis of a broadcast consuming it. -/
def isGridAllreduce (tv : FTv) : Bool :=
  if tv.memoryType != MemoryType.Local then false
  else
    let rpts := reductionBlockParallelTypes tv
    tv.bcastUseDomains.any (fun bdom =>
      bdom.any (fun bid =>
        isParallelTypeBlockDim bid.parallelType && rpts.contains bid.parallelType))

/-- The grid-all-reduce condition as the claim words it: the node lives
in local memory, and some block-level parallel dimension used by one of
its reduction axes also parallelizes a broadcast consuming its result. -/
def gridAllreduceSpec (tv : FTv) : Prop :=
  tv.memoryType = MemoryType.Local ∧
    ∃ pt, isParallelTypeBlockDim pt = true ∧
      (∃ id ∈ tv.domain, id.isReduction = true ∧ id.parallelType = pt) ∧
      (∃ bdom ∈ tv.bcastUseDomains, ∃ bid ∈ bdom, bid.parallelType = pt)

instance (tv : FTv) : Decidable (gridAllreduceSpec tv) := by
  unfold gridAllreduceSpec
  infer_instance

/-- Positional propagation of the reference node's parallel assignments
restricted to the given parallel types, onto one axis list. -/
def propagateTypesOnto (refDom : List IterDomain) (types : List ParallelType)
    (dom : List IterDomain) : List IterDomain :=
  dom.enum.map (fun p =>
    match refDom.get? p.1 with
    | some r =>
      if types.contains r.parallelType then
        { p.2 with parallelType := r.parallelType }
      else p.2
    | none => p.2)

/-- Modelled from the spec: `scheduler_utils::parallelizeAllLike` is
declared outside this repository's sources.  Per the specification it
propagates the reference node's parallel-dimension assignments,
restricted to the selected parallel types, onto the selected nodes
(every node when no selection is given); in this model nodes are
already structurally aligned with the reference, so the propagation is
positional. -/
def parallelizeAllLikeModel (ref : FTv) (selected : Option (List Nat))
    (types : List ParallelType) (tvs : List FTv) : List FTv :=
  tvs.map (fun tv =>
    if (match selected with
        | none => true
        | some sel => sel.contains tv.tvId) then
      { tv with domain := propagateTypesOnto ref.domain types tv.domain }
    else tv)

/-- Modelled from the spec: `allParallelTypesExcept` is declared outside
this repository's sources; per the specification it denotes all
parallel-dimension assignments minus the given ones (the serial
non-assignment is not an assignment and is never propagated). -/
def allParallelTypesExceptModel (excluded : List ParallelType) : List ParallelType :=
  [ParallelType.BIDz, ParallelType.BIDy, ParallelType.BIDx,
   ParallelType.TIDz, ParallelType.TIDy, ParallelType.TIDx,
   ParallelType.Vectorize, ParallelType.MisalignedVectorize,
   ParallelType.Unroll, ParallelType.Unswitch,
   ParallelType.Group].filter (fun pt => !(excluded.contains pt))

/-- Translation of the grid-all-reduce regrouping step of
`multiReductionInliner` (its last unrolled-path action): every
reduction view other than the original that is a grid all-reduce gets
the group assignment propagated from the original reduction view. -/
def allreduceGroupStep (reduction_tv : FTv) (reduction_tvs : List FTv) : List FTv :=
  let allreduce_ids := (reduction_tvs.filter
    (fun tv => tv.tvId != reduction_tv.tvId && isGridAllreduce tv)).map
      (fun tv => tv.tvId)
  if allreduce_ids.isEmpty then reduction_tvs
  else parallelizeAllLikeModel reduction_tv (some allreduce_ids)
    [ParallelType.Group] reduction_tvs

/-- Fusion state for the propagation-and-inlining driver: the views and
the output list. -/
structure FusionModel where
  tvs : List FTv
  outputs : List Nat
  deriving DecidableEq, Repr

/-- Lookup of a view by identity. -/
def findTv (tvs : List FTv) (i : Nat) : Option FTv :=
  tvs.find? (fun tv => tv.tvId == i)

/-- Assign one parallel type to one axis position of the given views. -/
def setAxisPT (tvs : List FTv) (ids : List Nat) (axis : Nat) (pt : ParallelType) :
    List FTv :=
  tvs.map (fun tv =>
    if ids.contains tv.tvId then
      { tv with domain := (tv.domain.enum.map
          (fun p => if p.1 == axis then { p.2 with parallelType := pt } else p.2)) }
    else tv)

/-- Translation of the per-view clearing loop of `multiReductionInliner`
step 5: on a reference or original reduction view that is not in the
unrolled set, a vectorized axis becomes group under outer grid
persistence when the view is one of the reduction views (mirrored to
siblings), and any unroll/vectorize/misaligned-vectorize axis is
otherwise stripped back to serial (mirrored to siblings). -/
def stripOrRegroupOne (rp : ReductionParams) (reduction_tvIds : List Nat)
    (are_unrolled : List Nat) (tvs : List FTv) (tid : Nat) : List FTv :=
  if are_unrolled.contains tid then tvs
  else
    match findTv tvs tid with
    | none => tvs
    | some t0 =>
      (List.range t0.domain.length).foldl
        (fun tvs i =>
          match findTv tvs tid with
          | none => tvs
          | some t =>
            match t.domain.get? i with
            | none => tvs
            | some id =>
              if isOuterGridPersistence rp && reduction_tvIds.contains tid &&
                  id.parallelType == ParallelType.Vectorize then
                setAxisPT tvs (tid :: t.siblings) i ParallelType.Group
              else if isUnrolledLike id.parallelType then
                setAxisPT tvs (tid :: t.siblings) i ParallelType.Serial
              else tvs) tvs

/-- Translation of the parallelization-relevant body of
`multiReductionInliner` (its lines after the rfactor replay): the
general propagation of every parallel assignment except
unroll/vectorize/misaligned-vectorize, then — only for unrolled
schedules — the eligible-set computation, the unroll/vectorize
propagation onto that set, the strip-or-regroup pass over the reference
and original reduction views, and the grid-all-reduce regrouping;
finally the scaffold outputs are removed.  The transformation replay,
the rfactor replay and the final inlining do not change parallel
assignments and are outside this state model; the externally computed
vectorizable boundary views (`getInputsOutputsWithInnerDim`) enter as
an input. -/
def multiReductionInlinerModel (rp : ReductionParams) (fm : FusionModel)
    (reductionId referenceId : Nat) (reduction_tvIds : List Nat)
    (cached_inputIds : List Nat) (cached_outputPairs : List (Nat × Nat))
    (dummy_outputIds : List Nat) (vectorizableIOIds : List Nat) : FusionModel :=
  match findTv fm.tvs referenceId with
  | none => fm
  | some ref =>
    let tvs := parallelizeAllLikeModel ref none
      (allParallelTypesExceptModel
        [ParallelType.Unroll, ParallelType.Vectorize,
         ParallelType.MisalignedVectorize]) fm.tvs
    let tvs :=
      if rp.isUnrolled then
        let vectorize := rp.vectorize_inner_reduction || rp.vectorize_iter_dom
        let are_unrolled_inputs := cached_inputIds.filter (fun i =>
          match findTv tvs i with
          | some ci =>
            if vectorize then
              ci.producers.length == 1 && ci.defIsSet &&
                (match ci.producers with
                 | [p] => vectorizableIOIds.contains p
                 | _ => false)
            else true
          | none => false)
        let are_unrolled_outputs := cached_outputPairs.filterMap (fun pr =>
          match findTv tvs pr.2 with
          | some co =>
            if vectorize then
              if co.defIsSet && vectorizableIOIds.contains co.tvId then some pr.2
              else none
            else some pr.2
          | none => none)
        let are_unrolled := are_unrolled_inputs ++ are_unrolled_outputs
        let tvs := if !are_unrolled.isEmpty then
            parallelizeAllLikeModel ref (some are_unrolled)
              [ParallelType.Unroll, ParallelType.Vectorize,
               ParallelType.MisalignedVectorize] tvs
          else tvs
        let tvs := stripOrRegroupOne rp reduction_tvIds are_unrolled tvs referenceId
        let tvs := stripOrRegroupOne rp reduction_tvIds are_unrolled tvs reductionId
        match findTv tvs reductionId with
        | none => tvs
        | some red =>
          let allreduce_ids := reduction_tvIds.filter (fun i =>
            i != reductionId &&
              (match findTv tvs i with
               | some t => isGridAllreduce t
               | none => false))
          if allreduce_ids.isEmpty then tvs
          else parallelizeAllLikeModel red (some allreduce_ids)
            [ParallelType.Group] tvs
      else tvs
    { tvs := tvs,
      outputs := fm.outputs.filter (fun o => !(dummy_outputIds.contains o)) }

/-- Number of axes of a view carrying the unswitch assignment. -/
def unswitchCount (tv : TensorView) : Nat :=
  tv.domain.countP (fun id => id.parallelType == ParallelType.Unswitch)

/-- Claim C9 as stated: whenever an iteration axis is present, the
iteration-domain block applies an unswitch split in every regime except
outer grid persistence (first conjunct), and never applies one under
outer grid persistence (second conjunct). -/
def claimC9Original : Prop :=
  (∀ (rp : ReductionParams) (tv tv' : TensorView),
    isOuterGridPersistence rp = false → scheduleIterDomain rp tv = Except.ok tv' →
      unswitchCount tv < unswitchCount tv') ∧
  (∀ (rp : ReductionParams) (tv tv' : TensorView),
    isOuterGridPersistence rp = true → scheduleIterDomain rp tv = Except.ok tv' →
      unswitchCount tv' = unswitchCount tv)

/-- Candidate for staging: a reduction axis that is not
hardware-parallel. -/
def isStagingCandidate (id : IterDomain) : Bool :=
  id.isReduction && !id.isThread

/-- A degenerate unswitched axis: unswitched with extent exactly one. -/
def isDegenerateUnswitch (id : IterDomain) : Bool :=
  id.parallelType == ParallelType.Unswitch && id.extent.isOneInt

/-- The staged axis set as the claim describes it: all positions holding
reduction axes that are not hardware-parallel; when every reduction axis
of the domain is such a candidate, positions holding unswitched axes of
extent exactly one are excluded. -/
def stagedAxesSpec (domain : List IterDomain) : List Nat :=
  let cands := (List.range domain.length).filter
    (fun i => isStagingCandidate (domain.getD i dfltId))
  if domain.all (fun id => !id.isReduction || isStagingCandidate id) then
    cands.filter (fun i => !isDegenerateUnswitch (domain.getD i dfltId))
  else cands

/-- A node of the graph seen by the persistent-buffer projector: its
identity, whether it performs a reduction, whether it has a defining
expression, and the identities of that expression's inputs. -/
structure PNode where
  nid : Nat
  hasReduction : Bool
  defined : Bool
  inputs : List Nat
  deriving DecidableEq, Repr

/-- Graph state of the projector: the nodes and the next fresh
identity. -/
structure PGraph where
  nodes : List PNode
  nextId : Nat
  deriving DecidableEq, Repr

/-- Lookup of a node by identity. -/
def findNode (g : PGraph) (i : Nat) : Option PNode :=
  g.nodes.find? (fun n => n.nid == i)

/-- Whether the node with the given identity performs a reduction. -/
def nodeHasReduction (g : PGraph) (i : Nat) : Bool :=
  match findNode g i with
  | some n => n.hasReduction
  | none => false

/-- A dependency chain survives when no node on it (the buffer and the
resolution point included, as the source checks the whole filtered
chain) performs a reduction. -/
def chainSurvives (g : PGraph) (chain : List Nat) : Bool :=
  !(chain.any (fun i => nodeHasReduction g i))

/-- Translation of the use-recording loops of `projectPersistentBuffers`:
walk the resolution points, walk every dependency chain from the buffer
to each of them, drop the chains passing through a reduction, and record
each surviving chain's second node once (the source indexes `chain[1]`
unconditionally; a chain too short to have a second node is skipped
here).  The chains themselves come from the external
`DependencyCheck::getAllDependencyChains` and enter as an input. -/
def recordUses (g : PGraph) (resolution_points : List Nat)
    (chains : Nat → Nat → List (List Nat)) (buffer : Nat) : List Nat :=
  resolution_points.foldl
    (fun acc rpoint =>
      (chains buffer rpoint).foldl
        (fun acc chain =>
          if !(chainSurvives g chain) then acc
          else
            match chain.get? 1 with
            | none => acc
            | some use => if acc.contains use then acc else acc ++ [use]) acc) []

/-- Translation of the per-use projection loop of
`projectPersistentBuffers`: for each recorded use, a use without a
defining expression is fatal; otherwise the buffer is recomputed into a
fresh node from the buffer's own inputs (`RecomputeTv::recompute`), a
scaffold node summing the duplicate and the buffer is appended and
recorded as a dummy output, and the use's defining expression is
rewritten to consume the duplicate in place of the buffer. -/
def projectUses (g : PGraph) (buffer : Nat) (uses : List Nat) :
    Except String (PGraph × List Nat) :=
  match uses with
  | [] => Except.ok (g, [])
  | use :: rest =>
    match findNode g use, findNode g buffer with
    | some un, some bn =>
      if !un.defined then Except.error ("use->definition() is null")
      else
        let replicateId := g.nextId
        let replicate : PNode :=
          { nid := replicateId, hasReduction := bn.hasReduction,
            defined := true, inputs := bn.inputs }
        let dummyId := g.nextId + 1
        let dummy : PNode :=
          { nid := dummyId, hasReduction := false, defined := true,
            inputs := [replicateId, buffer] }
        let nodes := (g.nodes.map (fun n =>
          if n.nid == use then
            { n with inputs := (n.inputs.map
                (fun k => if k == buffer then replicateId else k)) }
          else n)) ++ [replicate, dummy]
        match projectUses ⟨nodes, g.nextId + 2⟩ buffer rest with
        | Except.ok (g', dummies) => Except.ok (g', dummyId :: dummies)
        | Except.error e => Except.error e
    | _, _ => Except.error ("use or buffer not found")

/-- Translation of `projectPersistentBuffers`: the buffer and
resolution-point lists must agree in length; every persistent buffer
that is also projectable is processed by recording its surviving uses
and projecting each one; the dummy outputs accumulate across buffers. -/
def projectPersistentBuffersModel (g : PGraph) (persistent_buffers : List Nat)
    (resolution_points : List (List Nat)) (projectable : List Nat)
    (chains : Nat → Nat → List (List Nat)) : Except String (PGraph × List Nat) :=
  if persistent_buffers.length != resolution_points.length then
    Except.error ("persistent buffer list and resolution point list differ in size")
  else
    (List.range persistent_buffers.length).foldlM
      (fun (st : PGraph × List Nat) bi =>
        let buffer := persistent_buffers.getD bi 0
        if !(projectable.contains buffer) then Except.ok st
        else
          let rps := resolution_points.getD bi []
          let uses := recordUses st.1 rps chains buffer
          match projectUses st.1 buffer uses with
          | Except.ok r => Except.ok (r.1, st.2 ++ r.2)
          | Except.error e => Except.error e) (g, [])

/-- Rewrite applied by the projection to the node of one recorded use:
its defining expression's occurrences of the buffer are replaced by the
duplicate created for that use. -/
def rewriteUseNode (buffer : Nat) (uses : List Nat) (base : Nat) (n : PNode) : PNode :=
  if uses.contains n.nid then
    { n with inputs := (n.inputs.map
        (fun k => if k == buffer then base + 2 * uses.indexOf n.nid else k)) }
  else n

/-- The nodes appended by the projection: for the k-th recorded use, the
recomputed duplicate of the buffer followed by the scaffold node summing
the duplicate with the buffer. -/
def projectedNewNodes (bufferInputs : List Nat) (bufferHasRed : Bool)
    (buffer : Nat) (base : Nat) (count : Nat) : List PNode :=
  (List.range count).flatMap (fun k =>
    [{ nid := base + 2 * k, hasReduction := bufferHasRed, defined := true,
       inputs := bufferInputs },
     { nid := base + 2 * k + 1, hasReduction := false, defined := true,
       inputs := [base + 2 * k, buffer] }])

/-- The dummy-output identities returned by the projection: the scaffold
node of each recorded use, in order. -/
def projectedDummyIds (base : Nat) (count : Nat) : List Nat :=
  (List.range count).map (fun k => base + 2 * k + 1)

/-- The axis layout the outer-grid-persistence branch of
`scheduleReductionTV` produces from the inner reduction axis: the static
block split, the batch split carrying the grid dimension on its outer
part, and the unswitch split covering either the whole buffer axis (when
the unroll factor equals the batches per block) or an inner sub-split of
it. -/
def claimedOgpInnerLayout (rp : ReductionParams) (id : IterDomain) : List IterDomain :=
  let o1 := splitOuterId id (ExtentE.lit rp.lparams.bdimy) true
  let i1 := setPT (splitInnerId id (ExtentE.lit rp.lparams.bdimy) true)
    rp.block_dim_inner_reduction
  let o2 := setPT (splitOuterId o1 (ExtentE.lit rp.batches_per_block_inner_reduction) true)
    rp.grid_dim_inner_reduction
  let i2 := splitInnerId o1 (ExtentE.lit rp.batches_per_block_inner_reduction) true
  if rp.batches_per_block_inner_reduction == rp.unroll_factor_inner_reduction then
    [o2, setPT (splitOuterId i2 (ExtentE.lit 1) false) ParallelType.Unswitch,
     splitInnerId i2 (ExtentE.lit 1) false, i1]
  else
    let b := splitInnerId i2 (ExtentE.lit rp.unroll_factor_inner_reduction) true
    [o2, splitOuterId i2 (ExtentE.lit rp.unroll_factor_inner_reduction) true,
     setPT (splitOuterId b (ExtentE.lit 1) false) ParallelType.Unswitch,
     splitInnerId b (ExtentE.lit 1) false, i1]

/-- The `domain_pos` fill loop truncated to its first `n` iterations,
used to reason about `domainPosFind` by induction. -/
def dpfAux (s : List IterDomain) (id : IterDomain) (n : Nat) : Option Nat :=
  (List.range n).foldl (fun acc i => if s.getD i dfltId == id then some i else acc) none

/-- The reorder entries the vectorized-axis scan emits for `b` axes
located after the vectorized axis, starting at position `i`. -/
def vecEnts : Nat → Nat → List (Int × Int)
  | _, 0 => []
  | i, b + 1 => ((i : Int), (i : Int) - 1) :: vecEnts (i + 1) b

/-- `vecEnts` with both positions already normalized to axis indices. -/
def natEnts : Nat → Nat → List (Nat × Nat)
  | _, 0 => []
  | i, b + 1 => (i, i - 1) :: natEnts (i + 1) b

/-- Default graph-level view, used as the `getD` fallback. -/
def dfltFTv : FTv :=
  { tvId := 0, memoryType := MemoryType.Local, domain := [], bcastUseDomains := [],
    producers := [], defIsSet := false, siblings := [] }

/-- A neutral parameter record: nothing vectorized, no unrolling, no
cross-block or cross-grid reductions, static block dimensions. -/
def rpBase : ReductionParams :=
  { fastest_dim := false
    persistent_kernel := false
    schedule_3D := false
    cross_block_inner_reduction := false
    cross_grid_inner_reduction := false
    split_grid_dim_inner_reduction := false
    vectorize_inner_reduction := false
    unroll_factor_inner_reduction := 1
    batches_per_block_inner_reduction := 1
    block_dim_inner_reduction := ParallelType.TIDx
    grid_dim_inner_reduction := ParallelType.BIDx
    pad_inner_reduction_to_warp := false
    cross_block_outer_reduction := false
    cross_grid_outer_reduction := false
    unroll_factor_outer_reduction := 1
    batches_per_block_outer_reduction := 1
    block_dim_outer_reduction := ParallelType.TIDy
    grid_dim_outer_reduction := ParallelType.BIDy
    multiple_reds_per_blk := false
    vectorize_iter_dom := false
    unroll_factor_iter_dom := 1
    block_dim_iter_dom := ParallelType.Serial
    grid_dim_iter_dom := ParallelType.Serial
    split_grid_dim_iter_dom_outer := false
    split_grid_dim_iter_dom_inner := false
    static_bdimx := true
    static_bdimy := true
    lparams := { bdimx := 32, bdimy := 8 } }

/-- `rpBase` with an iteration-domain unroll factor of two. -/
def rpUnsw : ReductionParams := { rpBase with unroll_factor_iter_dom := 2 }

/-- The view `scheduleIterDomain rpUnsw` produces from a single default
axis: an unroll split followed by an unswitch split. -/
def tvC9out : TensorView :=
  ⟨[splitOuterId (splitOuterId dfltId (ExtentE.lit 2) true) (ExtentE.lit 1) true,
    setPT (splitInnerId (splitOuterId dfltId (ExtentE.lit 2) true) (ExtentE.lit 1) true)
      ParallelType.Unswitch,
    setPT (splitInnerId dfltId (ExtentE.lit 2) true) ParallelType.Unroll]⟩

/-- `rpBase` with inner-reduction vectorization requested, violating the
outer-reduction precondition. -/
def rpC4 : ReductionParams := { rpBase with vectorize_inner_reduction := true }

/-- Whether the node with the given identity exists and has a defining
expression. -/
def useDefined (g : PGraph) (u : Nat) : Bool :=
  match findNode g u with
  | some n => n.defined
  | none => false

/-- A persistent buffer node: defined, not a reduction. -/
def pnC8buf : PNode := { nid := 0, hasReduction := false, defined := true, inputs := [5] }

/-- A graph with one persistent buffer (node 0), a reduction-free use
chain through node 1 to resolution point 3, and a chain through the
reduction node 2 to resolution point 4. -/
def pgC8 : PGraph :=
  { nodes := [pnC8buf,
      { nid := 1, hasReduction := false, defined := true, inputs := [0] },
      { nid := 2, hasReduction := true, defined := true, inputs := [0] },
      { nid := 3, hasReduction := false, defined := true, inputs := [1] },
      { nid := 4, hasReduction := false, defined := true, inputs := [2] }],
    nextId := 6 }

/-- The dependency chains of `pgC8`: one buffer-to-resolution chain per
resolution point. -/
def chainsC8 : Nat → Nat → List (List Nat) :=
  fun b r =>
    if b == 0 && r == 3 then [[0, 1, 3]]
    else if b == 0 && r == 4 then [[0, 2, 4]] else []

/-- A view with no axes, serving as its own reference. -/
def ftvC10 : FTv :=
  { tvId := 3, memoryType := MemoryType.Local, domain := [], bcastUseDomains := [],
    producers := [], defIsSet := false, siblings := [] }

end ReductionUtils

namespace ReductionUtils

theorem length_mid (pre : List IterDomain) (id : IterDomain) (post : List IterDomain) :
    pre.length < (pre ++ id :: post).length := by
  simp [List.length_append]

theorem get_mid : ∀ (pre : List IterDomain) (id : IterDomain) (post : List IterDomain)
    (h : pre.length < (pre ++ id :: post).length),
    (pre ++ id :: post).get ⟨pre.length, h⟩ = id
  | [], _, _, _ => rfl
  | _ :: pre, id, post, _ => get_mid pre id post (length_mid pre id post)

theorem take_mid : ∀ (pre : List IterDomain) (id : IterDomain) (post : List IterDomain),
    (pre ++ id :: post).take pre.length = pre
  | [], _, _ => rfl
  | a :: pre, id, post => by
    simpa using take_mid pre id post

theorem drop_mid : ∀ (pre : List IterDomain) (id : IterDomain) (post : List IterDomain),
    (pre ++ id :: post).drop (pre.length + 1) = post
  | [], _, _ => rfl
  | _ :: pre, id, post => drop_mid pre id post

theorem split_mid (pre : List IterDomain) (id : IterDomain) (post : List IterDomain)
    (f : ExtentE) (b : Bool) :
    TensorView.split ⟨pre ++ id :: post⟩ pre.length f b =
      Except.ok ⟨pre ++ splitOuterId id f b :: splitInnerId id f b :: post⟩ := by
  unfold TensorView.split
  rw [dif_pos (length_mid pre id post)]
  rw [get_mid, take_mid, drop_mid]

theorem parallelize_mid (pre : List IterDomain) (id : IterDomain) (post : List IterDomain)
    (pt : ParallelType) :
    TensorView.parallelizeAxis ⟨pre ++ id :: post⟩ pre.length pt =
      Except.ok ⟨pre ++ setPT id pt :: post⟩ := by
  unfold TensorView.parallelizeAxis
  rw [dif_pos (length_mid pre id post)]
  rw [get_mid, take_mid, drop_mid]

theorem pad_mid (pre : List IterDomain) (id : IterDomain) (post : List IterDomain) :
    TensorView.padAxisToWarp ⟨pre ++ id :: post⟩ pre.length =
      Except.ok ⟨pre ++ setPad id :: post⟩ := by
  unfold TensorView.padAxisToWarp
  rw [dif_pos (length_mid pre id post)]
  rw [get_mid, take_mid, drop_mid]

end ReductionUtils

namespace ReductionUtils

theorem midShape (pre : List IterDomain) (a : IterDomain) (rest : List IterDomain) :
    pre ++ a :: rest = (pre ++ [a]) ++ rest := by simp

theorem innerParallelStaticOp_mid (pre : List IterDomain) (id : IterDomain)
    (post : List IterDomain) (pt : ParallelType) (f : Nat) :
    innerParallelStaticOp ⟨pre ++ id :: post⟩ pre.length pt f =
      Except.ok ⟨pre ++ splitOuterId id (ExtentE.lit f) true ::
        setPT (splitInnerId id (ExtentE.lit f) true) pt :: post⟩ := by
  unfold innerParallelStaticOp
  rw [split_mid]
  simp only [bind, Except.bind]
  rw [midShape pre _ (splitInnerId id (ExtentE.lit f) true :: post)]
  rw [show pre.length + 1 = (pre ++ [splitOuterId id (ExtentE.lit f) true]).length from (by simp)]
  rw [parallelize_mid]
  simp

end ReductionUtils

namespace ReductionUtils

theorem vectorizeOp_mid (pre : List IterDomain) (id : IterDomain)
    (post : List IterDomain) (f : Nat) :
    vectorizeOp ⟨pre ++ id :: post⟩ pre.length f =
      Except.ok ⟨pre ++ splitOuterId id (ExtentE.lit f) true ::
        setPT (splitInnerId id (ExtentE.lit f) true) ParallelType.Vectorize :: post⟩ := by
  unfold vectorizeOp
  rw [split_mid]
  simp only [bind, Except.bind]
  rw [midShape pre _ (splitInnerId id (ExtentE.lit f) true :: post)]
  rw [show pre.length + 1 = (pre ++ [splitOuterId id (ExtentE.lit f) true]).length from (by simp)]
  rw [parallelize_mid]
  simp

theorem innerParallelOp_mid (pre : List IterDomain) (id : IterDomain)
    (post : List IterDomain) (pt : ParallelType) :
    innerParallelOp ⟨pre ++ id :: post⟩ pre.length pt =
      Except.ok ⟨pre ++ splitOuterId id (ExtentE.pdim pt) true ::
        setPT (splitInnerId id (ExtentE.pdim pt) true) pt :: post⟩ := by
  unfold innerParallelOp
  rw [split_mid]
  simp only [bind, Except.bind]
  rw [midShape pre _ (splitInnerId id (ExtentE.pdim pt) true :: post)]
  rw [show pre.length + 1 = (pre ++ [splitOuterId id (ExtentE.pdim pt) true]).length from (by simp)]
  rw [parallelize_mid]
  simp

theorem innerUnswitchOp_mid (pre : List IterDomain) (id : IterDomain)
    (post : List IterDomain) :
    innerUnswitchOp ⟨pre ++ id :: post⟩ pre.length =
      Except.ok ⟨pre ++ splitOuterId id (ExtentE.lit 1) true ::
        setPT (splitInnerId id (ExtentE.lit 1) true) ParallelType.Unswitch :: post⟩ := by
  unfold innerUnswitchOp
  rw [split_mid]
  simp only [bind, Except.bind]
  rw [midShape pre _ (splitInnerId id (ExtentE.lit 1) true :: post)]
  rw [show pre.length + 1 = (pre ++ [splitOuterId id (ExtentE.lit 1) true]).length from (by simp)]
  rw [parallelize_mid]
  simp

theorem innerUnrollOp_mid (pre : List IterDomain) (id : IterDomain)
    (post : List IterDomain) (f : Nat) :
    innerUnrollOp ⟨pre ++ id :: post⟩ pre.length f =
      Except.ok ⟨pre ++ splitOuterId id (ExtentE.lit f) true ::
        setPT (splitInnerId id (ExtentE.lit f) true) ParallelType.Unroll :: post⟩ := by
  unfold innerUnrollOp
  rw [split_mid]
  simp only [bind, Except.bind]
  rw [midShape pre _ (splitInnerId id (ExtentE.lit f) true :: post)]
  rw [show pre.length + 1 = (pre ++ [splitOuterId id (ExtentE.lit f) true]).length from (by simp)]
  rw [parallelize_mid]
  simp

theorem outerParallelOp_mid (pre : List IterDomain) (id : IterDomain)
    (post : List IterDomain) (pt : ParallelType) :
    outerParallelOp ⟨pre ++ id :: post⟩ pre.length pt =
      Except.ok ⟨pre ++ setPT (splitOuterId id (ExtentE.pdim pt) false) pt ::
        splitInnerId id (ExtentE.pdim pt) false :: post⟩ := by
  unfold outerParallelOp
  rw [split_mid]
  simp only [bind, Except.bind]
  rw [parallelize_mid]

theorem outerUnswitchOp_mid (pre : List IterDomain) (id : IterDomain)
    (post : List IterDomain) :
    outerUnswitchOp ⟨pre ++ id :: post⟩ pre.length =
      Except.ok ⟨pre ++ setPT (splitOuterId id (ExtentE.lit 1) false) ParallelType.Unswitch ::
        splitInnerId id (ExtentE.lit 1) false :: post⟩ := by
  unfold outerUnswitchOp
  rw [split_mid]
  simp only [bind, Except.bind]
  rw [parallelize_mid]

theorem outerUnrollOp_mid (pre : List IterDomain) (id : IterDomain)
    (post : List IterDomain) (f : Nat) :
    outerUnrollOp ⟨pre ++ id :: post⟩ pre.length f =
      Except.ok ⟨pre ++ setPT (splitOuterId id (ExtentE.lit f) false) ParallelType.Unroll ::
        splitInnerId id (ExtentE.lit f) false :: post⟩ := by
  unfold outerUnrollOp
  rw [split_mid]
  simp only [bind, Except.bind]
  rw [parallelize_mid]

end ReductionUtils

namespace ReductionUtils

theorem sched_inner_ogp (rp : ReductionParams) (pre : List IterDomain)
    (id : IterDomain) (post : List IterDomain)
    (hogp : isOuterGridPersistence rp = true) (hstat : rp.static_bdimy = true) :
    scheduleInnerReduction rp ⟨pre ++ id :: post⟩ pre.length =
      Except.ok ⟨pre ++ claimedOgpInnerLayout rp id ++ post⟩ := by
  unfold scheduleInnerReduction
  rw [hogp]
  simp only [if_true, hstat, Bool.not_true, Bool.false_eq_true, if_false]
  rw [innerParallelStaticOp_mid]
  simp only [bind, Except.bind]
  rw [split_mid]
  simp only [bind, Except.bind]
  rw [parallelize_mid]
  simp only [bind, Except.bind]
  by_cases hnu : rp.batches_per_block_inner_reduction == rp.unroll_factor_inner_reduction
  · simp only [hnu, if_true]
    rw [midShape pre _ (splitInnerId (splitOuterId id (ExtentE.lit rp.lparams.bdimy) true)
      (ExtentE.lit rp.batches_per_block_inner_reduction) true ::
      setPT (splitInnerId id (ExtentE.lit rp.lparams.bdimy) true)
        rp.block_dim_inner_reduction :: post)]
    rw [show pre.length + 1 = (pre ++ [setPT (splitOuterId (splitOuterId id
      (ExtentE.lit rp.lparams.bdimy) true) (ExtentE.lit rp.batches_per_block_inner_reduction)
      true) rp.grid_dim_inner_reduction]).length from (by simp)]
    rw [outerUnswitchOp_mid]
    simp [claimedOgpInnerLayout, hnu]
  · simp only [hnu, Bool.false_eq_true, if_false]
    rw [midShape pre _ (splitInnerId (splitOuterId id (ExtentE.lit rp.lparams.bdimy) true)
      (ExtentE.lit rp.batches_per_block_inner_reduction) true ::
      setPT (splitInnerId id (ExtentE.lit rp.lparams.bdimy) true)
        rp.block_dim_inner_reduction :: post)]
    rw [show pre.length + 1 = (pre ++ [setPT (splitOuterId (splitOuterId id
      (ExtentE.lit rp.lparams.bdimy) true) (ExtentE.lit rp.batches_per_block_inner_reduction)
      true) rp.grid_dim_inner_reduction]).length from (by simp)]
    rw [split_mid]
    simp only [bind, Except.bind]
    rw [midShape _ _ (splitInnerId (splitInnerId (splitOuterId id (ExtentE.lit rp.lparams.bdimy)
      true) (ExtentE.lit rp.batches_per_block_inner_reduction) true)
      (ExtentE.lit rp.unroll_factor_inner_reduction) true ::
      setPT (splitInnerId id (ExtentE.lit rp.lparams.bdimy) true)
        rp.block_dim_inner_reduction :: post)]
    rw [show pre.length + 1 + 1 = ((pre ++ [setPT (splitOuterId (splitOuterId id
      (ExtentE.lit rp.lparams.bdimy) true) (ExtentE.lit rp.batches_per_block_inner_reduction)
      true) rp.grid_dim_inner_reduction]) ++ [splitOuterId (splitInnerId (splitOuterId id
      (ExtentE.lit rp.lparams.bdimy) true) (ExtentE.lit rp.batches_per_block_inner_reduction)
      true) (ExtentE.lit rp.unroll_factor_inner_reduction) true]).length from (by simp)]
    rw [outerUnswitchOp_mid]
    simp [claimedOgpInnerLayout, hnu]

end ReductionUtils

namespace ReductionUtils

theorem thread_ne_unswitch {pt : ParallelType} (h : isParallelTypeThread pt = true) :
    (pt == ParallelType.Unswitch) = false := by
  cases pt <;> simp_all [isParallelTypeThread, isParallelTypeBlockDim, isParallelTypeThreadDim]

end ReductionUtils

namespace ReductionUtils

theorem parallelizeAxis_head (x : IterDomain) (rest : List IterDomain) (pt : ParallelType) :
    TensorView.parallelizeAxis ⟨x :: rest⟩ 0 pt = Except.ok ⟨setPT x pt :: rest⟩ := by
  simpa using parallelize_mid [] x rest pt

theorem vectorizeOp_head (x : IterDomain) (rest : List IterDomain) (f : Nat) :
    vectorizeOp ⟨x :: rest⟩ 0 f =
      Except.ok ⟨splitOuterId x (ExtentE.lit f) true ::
        setPT (splitInnerId x (ExtentE.lit f) true) ParallelType.Vectorize :: rest⟩ := by
  simpa using vectorizeOp_mid [] x rest f

theorem innerParallelOp_head (x : IterDomain) (rest : List IterDomain) (pt : ParallelType) :
    innerParallelOp ⟨x :: rest⟩ 0 pt =
      Except.ok ⟨splitOuterId x (ExtentE.pdim pt) true ::
        setPT (splitInnerId x (ExtentE.pdim pt) true) pt :: rest⟩ := by
  simpa using innerParallelOp_mid [] x rest pt

theorem innerParallelStaticOp_head (x : IterDomain) (rest : List IterDomain)
    (pt : ParallelType) (f : Nat) :
    innerParallelStaticOp ⟨x :: rest⟩ 0 pt f =
      Except.ok ⟨splitOuterId x (ExtentE.lit f) true ::
        setPT (splitInnerId x (ExtentE.lit f) true) pt :: rest⟩ := by
  simpa using innerParallelStaticOp_mid [] x rest pt f

theorem innerUnrollOp_head (x : IterDomain) (rest : List IterDomain) (f : Nat) :
    innerUnrollOp ⟨x :: rest⟩ 0 f =
      Except.ok ⟨splitOuterId x (ExtentE.lit f) true ::
        setPT (splitInnerId x (ExtentE.lit f) true) ParallelType.Unroll :: rest⟩ := by
  simpa using innerUnrollOp_mid [] x rest f

theorem innerUnswitchOp_head (x : IterDomain) (rest : List IterDomain) :
    innerUnswitchOp ⟨x :: rest⟩ 0 =
      Except.ok ⟨splitOuterId x (ExtentE.lit 1) true ::
        setPT (splitInnerId x (ExtentE.lit 1) true) ParallelType.Unswitch :: rest⟩ := by
  simpa using innerUnswitchOp_mid [] x rest

theorem outerParallelOp_head (x : IterDomain) (rest : List IterDomain) (pt : ParallelType) :
    outerParallelOp ⟨x :: rest⟩ 0 pt =
      Except.ok ⟨setPT (splitOuterId x (ExtentE.pdim pt) false) pt ::
        splitInnerId x (ExtentE.pdim pt) false :: rest⟩ := by
  simpa using outerParallelOp_mid [] x rest pt

theorem split_nil (a : Nat) (f : ExtentE) (b : Bool) :
    TensorView.split ⟨[]⟩ a f b = Except.error ("split axis out of range") := by
  simp [TensorView.split]

theorem parallelizeAxis_nil (a : Nat) (pt : ParallelType) :
    TensorView.parallelizeAxis ⟨[]⟩ a pt = Except.error ("parallelize axis out of range") := by
  simp [TensorView.parallelizeAxis]

theorem vectorizeOp_nil (a : Nat) (f : Nat) :
    vectorizeOp ⟨[]⟩ a f = Except.error ("split axis out of range") := by
  simp [vectorizeOp, split_nil, bind, Except.bind]

theorem innerParallelOp_nil (a : Nat) (pt : ParallelType) :
    innerParallelOp ⟨[]⟩ a pt = Except.error ("split axis out of range") := by
  simp [innerParallelOp, split_nil, bind, Except.bind]

theorem innerParallelStaticOp_nil (a : Nat) (pt : ParallelType) (f : Nat) :
    innerParallelStaticOp ⟨[]⟩ a pt f = Except.error ("split axis out of range") := by
  simp [innerParallelStaticOp, split_nil, bind, Except.bind]

theorem innerUnrollOp_nil (a : Nat) (f : Nat) :
    innerUnrollOp ⟨[]⟩ a f = Except.error ("split axis out of range") := by
  simp [innerUnrollOp, split_nil, bind, Except.bind]

theorem innerUnswitchOp_nil (a : Nat) :
    innerUnswitchOp ⟨[]⟩ a = Except.error ("split axis out of range") := by
  simp [innerUnswitchOp, split_nil, bind, Except.bind]

theorem outerParallelOp_nil (a : Nat) (pt : ParallelType) :
    outerParallelOp ⟨[]⟩ a pt = Except.error ("split axis out of range") := by
  simp [outerParallelOp, split_nil, bind, Except.bind]

set_option maxHeartbeats 1000000 in
/-- C9 (amended): starting from a view with no unswitched axis, the
iteration-domain block of `scheduleReductionTV` produces exactly one
unswitched axis when the iteration-domain unroll factor exceeds one and
the regime is not outer grid persistence, and none otherwise.  The
spec's claim that the unswitch is applied in every regime except outer
grid persistence is refuted by `claim_C9_counterexample`. -/
theorem claim_C9 (rp : ReductionParams) (tv tv' : TensorView)
    (h0 : unswitchCount tv = 0)
    (hok : scheduleIterDomain rp tv = Except.ok tv') :
    unswitchCount tv' =
      (if rp.unroll_factor_iter_dom > 1 && !(isOuterGridPersistence rp) then 1 else 0) := by
  obtain ⟨dom⟩ := tv
  simp only [unswitchCount] at h0
  rcases dom with _ | ⟨x, rest⟩
  · unfold scheduleIterDomain at hok
    split_ifs at hok <;>
      simp only [vectorizeOp_nil, innerParallelOp_nil, innerParallelStaticOp_nil,
        innerUnrollOp_nil, innerUnswitchOp_nil, outerParallelOp_nil, parallelizeAxis_nil,
        bind, Except.bind, pure, Except.pure] at hok <;>
      (try exact Except.noConfusion hok) <;>
      (cases hok) <;>
      simp_all [unswitchCount] <;>
      (try (split <;> simp_all)) <;>
      (try omega)
  · rw [List.countP_cons] at h0
    have hr : List.countP (fun id => id.parallelType == ParallelType.Unswitch) rest = 0 := by
      omega
    have hx : (x.parallelType == ParallelType.Unswitch) = false := by
      cases hb : x.parallelType == ParallelType.Unswitch
      · rfl
      · rw [hb] at h0
        simp at h0
    unfold scheduleIterDomain at hok
    split_ifs at hok <;>
      simp only [vectorizeOp_head, innerParallelOp_head, innerParallelStaticOp_head,
        innerUnrollOp_head, innerUnswitchOp_head, outerParallelOp_head, parallelizeAxis_head,
        bind, Except.bind, pure, Except.pure] at hok <;>
      (try exact Except.noConfusion hok) <;>
      (cases hok) <;>
      simp_all [unswitchCount, List.countP_cons, setPT, splitOuterId,
        splitInnerId, thread_ne_unswitch, -List.countP_eq_zero] <;>
      (try omega) <;>
      (try (split <;> simp_all [-List.countP_eq_zero])) <;>
      (try omega)

end ReductionUtils

namespace ReductionUtils

theorem idPos_eq_rankPos (id : IterDomain) :
    idPos id = rankPos (amendedClassRank id) := by
  unfold idPos amendedClassRank
  generalize id.isReduction = r
  generalize isUnrolledLike id.parallelType = u
  generalize id.extent.isConstScalar = c
  generalize (id.parallelType == ParallelType.Unswitch) = w
  generalize id.isThread = t
  generalize id.isBroadcast = b1
  generalize id.isImplicitBroadcast = b2
  generalize id.isBlockDim = bd
  generalize id.isThreadDim = td
  revert r u c w t b1 b2 bd td
  decide

theorem amendedClassRank_le (id : IterDomain) : amendedClassRank id ≤ 11 := by
  unfold amendedClassRank
  generalize id.isReduction = r
  generalize isUnrolledLike id.parallelType = u
  generalize id.extent.isConstScalar = c
  generalize (id.parallelType == ParallelType.Unswitch) = w
  generalize id.isThread = t
  generalize id.isBroadcast = b1
  generalize id.isImplicitBroadcast = b2
  generalize id.isBlockDim = bd
  generalize id.isThreadDim = td
  revert r u c w t b1 b2 bd td
  decide

theorem rankPos_strictAnti (r s : Nat) (h : r < s) (hs : s ≤ 11) :
    rankPos s < rankPos r := by
  interval_cases s <;> interval_cases r <;> decide

theorem rank_lt_idPos {x y : IterDomain}
    (h : amendedClassRank x < amendedClassRank y) : idPos y < idPos x := by
  have hy := amendedClassRank_le y
  rw [idPos_eq_rankPos, idPos_eq_rankPos]
  exact rankPos_strictAnti _ _ h hy

/-- C1 (amended): in `sortAndRFactor`, for every outcome of the
`std::sort` by `idPos` (`stdSortSpec`) and every pair of axes of the
sorted domain, if one axis's class strictly precedes the other's in the
corrected innermost-to-outermost key (`amendedClassRank`, which reverses
the spec's order of the post-boundary iteration classes), then it ends
up at a strictly more-inner (larger) position, regardless of the axes'
initial order.  The spec's key order and its tie-stability guarantee
are refuted by `claim_C1_counterexample`. -/
theorem claim_C1 (dom out : List IterDomain) (h : stdSortSpec dom out)
    (ia ib : Nat) (ha : ia < out.length) (hb : ib < out.length)
    (hrank : amendedClassRank (out.get ⟨ia, ha⟩) < amendedClassRank (out.get ⟨ib, hb⟩)) :
    ib < ia := by
  rcases h with ⟨-, hpair⟩
  by_contra hle
  push_neg at hle
  rcases Nat.lt_or_ge ia ib with hlt | hge
  · have := (List.pairwise_iff_get.mp hpair) ⟨ia, ha⟩ ⟨ib, hb⟩ hlt
    exact absurd this (by
      have := rank_lt_idPos hrank
      omega)
  · have : ia = ib := by omega
    subst this
    exact absurd hrank (by omega)

/-- C1 counterexample: the ordering key of spec section 4.1 is wrong for
the post-boundary iteration classes (an iteration axis of symbolic
extent sorts more inner than a hardware-block-parallel one, not more
outer), and `std::sort` gives no tie-stability guarantee, so axes of
equal class need not keep their declared order. -/
theorem claim_C1_counterexample : ¬ claimC1Strict ∧ ¬ claimC1Ties := by
  constructor
  · intro hs
    have := hs [cexIterBlock, cexIterSym] [cexIterBlock, cexIterSym] (by decide)
      0 1 (by decide) (by decide) (by decide)
    exact absurd this (by decide)
  · intro ht
    have := ht [cexIterSym, cexIterSym2] [cexIterSym2, cexIterSym] (by decide)
      0 1 (by decide) (by decide) (by decide) (by decide)
    exact absurd this (by decide)

end ReductionUtils

namespace ReductionUtils

theorem domainPosFind_eq_aux (s : List IterDomain) (id : IterDomain) :
    domainPosFind s id = dpfAux s id s.length := rfl

theorem dpfAux_succ (s : List IterDomain) (id : IterDomain) (n : Nat) :
    dpfAux s id (n + 1) =
      if s.getD n dfltId == id then some n else dpfAux s id n := by
  unfold dpfAux
  rw [List.range_succ, List.foldl_append]
  simp

theorem dpfAux_some (s : List IterDomain) (id : IterDomain) :
    ∀ n k, dpfAux s id n = some k → k < n ∧ s.getD k dfltId = id := by
  intro n
  induction n with
  | zero => intro k h; simp [dpfAux] at h
  | succ n ih =>
    intro k h
    rw [dpfAux_succ] at h
    by_cases hc : (s.getD n dfltId == id) = true
    · rw [if_pos hc] at h
      cases h
      exact ⟨Nat.lt_succ_self n, by simpa using hc⟩
    · rw [if_neg hc] at h
      have := ih k h
      exact ⟨Nat.lt_succ_of_lt this.1, this.2⟩

theorem dpfAux_isSome (s : List IterDomain) (id : IterDomain) :
    ∀ n k, k < n → s.getD k dfltId = id → (dpfAux s id n).isSome := by
  intro n
  induction n with
  | zero => intro k h; omega
  | succ n ih =>
    intro k hk hid
    rw [dpfAux_succ]
    by_cases hc : (s.getD n dfltId == id) = true
    · rw [if_pos hc]; rfl
    · rw [if_neg hc]
      have hkn : k < n := by
        rcases Nat.lt_or_ge k n with h | h
        · exact h
        · exfalso
          have : k = n := by omega
          subst this
          exact hc (by rw [hid]; simp)
      exact ih k hkn hid

theorem dpfAux_none (s : List IterDomain) (id : IterDomain) (n : Nat)
    (h : dpfAux s id n = none) : ∀ k, k < n → s.getD k dfltId ≠ id := by
  intro k hk hid
  have := dpfAux_isSome s id n k hk hid
  rw [h] at this
  simp at this

theorem domainPosFind_none_iff (s : List IterDomain) (id : IterDomain) :
    domainPosFind s id = none ↔ id ∉ s := by
  rw [domainPosFind_eq_aux]
  constructor
  · intro h hmem
    rcases List.mem_iff_get.mp hmem with ⟨⟨k, hk⟩, hget⟩
    exact dpfAux_none s id s.length h k hk (by rw [List.getD_eq_getElem s dfltId hk]; simpa using hget)
  · intro hnm
    cases hfind : dpfAux s id s.length with
    | none => rfl
    | some k =>
      exfalso
      have := dpfAux_some s id s.length k hfind
      exact hnm (by
        rw [List.getD_eq_getElem s dfltId this.1] at this
        exact this.2 ▸ List.getElem_mem this.1)

end ReductionUtils

namespace ReductionUtils

theorem domainPosFind_isSome_of_mem (s : List IterDomain) (id : IterDomain)
    (h : id ∈ s) : (domainPosFind s id).isSome := by
  rcases List.mem_iff_get.mp h with ⟨⟨k, hk⟩, hget⟩
  rw [domainPosFind_eq_aux]
  exact dpfAux_isSome s id s.length k hk
    (by rw [List.getD_eq_getElem s dfltId hk]; simpa using hget)

theorem crm_ok (sorted : List IterDomain) :
    ∀ (old : List IterDomain), (∀ x ∈ old, x ∈ sorted) →
      ∃ m, computeReorderMap old sorted = some m ∧ m.length = old.length ∧
        ∀ j, j < old.length → m.getD j 0 < sorted.length ∧
          sorted.getD (m.getD j 0) dfltId = old.getD j dfltId := by
  intro old
  induction old with
  | nil =>
    intro _
    exact ⟨[], rfl, rfl, by intro j hj; simp at hj⟩
  | cons id rest ih =>
    intro hsub
    have hmem : id ∈ sorted := hsub id (List.mem_cons_self id rest)
    have hsome := domainPosFind_isSome_of_mem sorted id hmem
    cases hf : domainPosFind sorted id with
    | none => rw [hf] at hsome; simp at hsome
    | some k =>
      rcases ih (fun x hx => hsub x (List.mem_cons_of_mem id hx)) with ⟨m, hm, hlen, hfacts⟩
      refine ⟨k :: m, ?_, ?_, ?_⟩
      · unfold computeReorderMap
        rw [hf, hm]
      · simpa using hlen
      · intro j hj
        cases j with
        | zero =>
          have := dpfAux_some sorted id sorted.length k (by rw [← domainPosFind_eq_aux]; exact hf)
          simpa using this
        | succ j' =>
          have := hfacts j' (by simpa using hj)
          simpa using this

end ReductionUtils

namespace ReductionUtils

theorem normalizePos_natCast (n k : Nat) : normalizePos n (k : Int) = k := by
  unfold normalizePos
  rw [if_neg (by omega)]
  simp

theorem crm_nodup (sorted old : List IterDomain) (m : List Nat)
    (hnd : old.Nodup) (hlen : m.length = old.length)
    (hfacts : ∀ j, j < old.length → m.getD j 0 < sorted.length ∧
      sorted.getD (m.getD j 0) dfltId = old.getD j dfltId) :
    m.Nodup := by
  rw [List.nodup_iff_injective_get]
  intro ⟨i, hi⟩ ⟨j, hj⟩ hij
  have hi' : i < old.length := hlen ▸ hi
  have hj' : j < old.length := hlen ▸ hj
  have h1 := (hfacts i hi').2
  have h2 := (hfacts j hj').2
  have hgd : m.getD i 0 = m.getD j 0 := by
    rw [List.getD_eq_getElem m 0 hi, List.getD_eq_getElem m 0 hj]
    simpa using hij
  rw [hgd, h2] at h1
  have hold : old.getD i dfltId = old.getD j dfltId := h1.symm
  rw [List.getD_eq_getElem old dfltId hi', List.getD_eq_getElem old dfltId hj'] at hold
  have := (List.Nodup.getElem_inj_iff hnd).mp hold
  exact Fin.ext this

theorem nat_list_surj (m : List Nat) (n : Nat) (hlen : m.length = n)
    (hb : ∀ x ∈ m, x < n) (hnd : m.Nodup) : ∀ k, k < n → k ∈ m := by
  intro k hk
  have hsub : m.toFinset ⊆ Finset.range n := by
    intro x hx
    rw [List.mem_toFinset] at hx
    exact Finset.mem_range.mpr (hb x hx)
  have hcard : (Finset.range n).card ≤ m.toFinset.card := by
    rw [List.toFinset_card_of_nodup hnd, hlen, Finset.card_range]
  have heq : m.toFinset = Finset.range n := Finset.eq_of_subset_of_card_le hsub hcard
  rw [← List.mem_toFinset, heq]
  exact Finset.mem_range.mpr hk

theorem reorder_eval (old sorted : List IterDomain) (m : List Nat)
    (hlen : m.length = old.length)
    (hslen : sorted.length = old.length)
    (hfacts : ∀ j, j < old.length → m.getD j 0 < sorted.length ∧
      sorted.getD (m.getD j 0) dfltId = old.getD j dfltId)
    (hsurj : ∀ k, k < old.length → k ∈ m) :
    (reorderTv ⟨old⟩ (((List.range old.length).zip m).map
      (fun q => ((q.1 : Int), (q.2 : Int))))).domain = sorted := by
  unfold reorderTv
  simp only
  have hzlen : ((List.range old.length).zip m).length = old.length := by
    simp [hlen]
  have hmapnorm : ((((List.range old.length).zip m).map
      (fun q => ((q.1 : Int), (q.2 : Int)))).map
      (fun q => (normalizePos old.length q.1, normalizePos old.length q.2))) =
      (List.range old.length).zip m := by
    rw [List.map_map]
    have hc : ∀ q ∈ (List.range old.length).zip m,
        ((fun q => (normalizePos old.length q.1, normalizePos old.length q.2)) ∘
          (fun q => ((q.1 : Int), (q.2 : Int)))) q = id q := by
      intro q _
      simp [normalizePos_natCast]
    rw [List.map_congr_left hc, List.map_id]
  rw [hmapnorm]
  apply List.ext_getElem
  · simp [hslen]
  · intro j hj1 hj2
    simp only [List.getElem_map, List.getElem_range]
    have hjn : j < old.length := by simpa using hj1
    have hjm : j ∈ m := hsurj j hjn
    rcases List.mem_iff_get.mp hjm with ⟨⟨i0, hi0⟩, hgeti0⟩
    have hfindsome : (((List.range old.length).zip m).find?
        (fun q => q.2 == j)).isSome := by
      rw [List.find?_isSome]
      refine ⟨(i0, j), List.mem_iff_get.mpr
        ⟨⟨i0, by rw [hzlen]; exact hlen ▸ hi0⟩, ?_⟩, by simp⟩
      simp [List.get_eq_getElem, List.getElem_zip, List.getElem_range]
      simpa [List.get_eq_getElem] using hgeti0
    cases hfind : ((List.range old.length).zip m).find? (fun q => q.2 == j) with
    | none => rw [hfind] at hfindsome; simp at hfindsome
    | some q =>
      simp only [hfind]
      have hq2 : q.2 = j := by
        have := List.find?_some hfind
        simpa using this
      have hqmem := List.mem_of_find?_eq_some hfind
      rcases List.mem_iff_get.mp hqmem with ⟨⟨i, hi⟩, hgeti⟩
      have hilen : i < old.length := by rw [hzlen] at hi; exact hi
      have hq : q = (i, m.getD i 0) := by
        rw [← hgeti, List.getD_eq_getElem m 0 (hlen ▸ hilen)]
        simp [List.get_eq_getElem, List.getElem_zip, List.getElem_range]
      have hq1 : q.1 = i := by rw [hq]
      have hmi : m.getD i 0 = j := by
        rw [hq] at hq2
        exact hq2
      rw [hq1]
      have hfact := (hfacts i hilen).2
      rw [hmi] at hfact
      rw [List.getD_eq_getElem old dfltId hilen] at hfact ⊢
      rw [List.getD_eq_getElem sorted dfltId (by rw [hslen]; exact hjn)] at hfact
      exact hfact.symm

end ReductionUtils

namespace ReductionUtils

theorem crm_none_iff (s : List IterDomain) :
    ∀ old, computeReorderMap old s = none ↔ ∃ x ∈ old, x ∉ s := by
  intro old
  induction old with
  | nil => simp [computeReorderMap]
  | cons id rest ih =>
    unfold computeReorderMap
    cases hf : domainPosFind s id with
    | none =>
      simp only
      constructor
      · intro _
        exact ⟨id, List.mem_cons_self id rest, (domainPosFind_none_iff s id).mp hf⟩
      · intro _
        trivial
    | some k =>
      cases hc : computeReorderMap rest s with
      | none =>
        simp only
        constructor
        · intro _
          rcases ih.mp hc with ⟨x, hx, hxs⟩
          exact ⟨x, List.mem_cons_of_mem id hx, hxs⟩
        · intro _
          trivial
      | some m =>
        simp only
        constructor
        · intro h
          exact absurd h (by simp)
        · intro h
          exfalso
          rcases h with ⟨x, hx, hxs⟩
          rcases List.mem_cons.mp hx with hx1 | hx2
          · subst hx1
            have h1 := dpfAux_some s x s.length k
              (by rw [← domainPosFind_eq_aux]; exact hf)
            apply hxs
            rw [List.getD_eq_getElem s dfltId h1.1] at h1
            exact h1.2 ▸ List.getElem_mem h1.1
          · have hn := ih.mpr ⟨x, hx2, hxs⟩
            simp [hc] at hn

/-- C2: in `sortAndRFactor`, for every duplicate-free domain and every
sorted outcome, the computed old-to-new reorder map exists and is a
bijective permutation — one entry per old axis, without repetition,
covering every new position — and applying it through `reorderTv`
reproduces the sorted domain, a permutation of the old axes (the
multiset of axes is unchanged); the map computation fails exactly when
some old axis cannot be located in the sorted domain, which
`sortAndRFactorModel` turns into a fatal error. -/
theorem claim_C2 (dom sorted : List IterDomain)
    (hspec : stdSortSpec dom sorted) (hnd : dom.Nodup) :
    (∃ m, computeReorderMap dom sorted = some m ∧
      m.length = dom.length ∧ m.Nodup ∧
      (∀ k, k ∈ m → k < dom.length) ∧
      (∀ k, k < dom.length → k ∈ m) ∧
      (reorderTv ⟨dom⟩ (((List.range dom.length).zip m).map
        (fun q => ((q.1 : Int), (q.2 : Int))))).domain = sorted ∧
      List.Perm (reorderTv ⟨dom⟩ (((List.range dom.length).zip m).map
        (fun q => ((q.1 : Int), (q.2 : Int))))).domain dom) ∧
    (∀ old2 s2 : List IterDomain,
      computeReorderMap old2 s2 = none ↔ ∃ x ∈ old2, x ∉ s2) := by
  rcases hspec with ⟨hperm, -⟩
  have hslen : sorted.length = dom.length := hperm.length_eq
  have hsub : ∀ x ∈ dom, x ∈ sorted := fun x hx => hperm.mem_iff.mpr hx
  rcases crm_ok sorted dom hsub with ⟨m, hm, hlen, hfacts⟩
  have hnodup : m.Nodup := crm_nodup sorted dom m hnd hlen hfacts
  have hbound : ∀ k, k ∈ m → k < dom.length := by
    intro k hk
    rcases List.mem_iff_get.mp hk with ⟨⟨i, hi⟩, hget⟩
    have hi' : i < dom.length := hlen ▸ hi
    have hlt := (hfacts i hi').1
    have hgd : m.getD i 0 = k := by
      rw [List.getD_eq_getElem m 0 hi, ← hget]
      simp [List.get_eq_getElem]
    rw [hgd] at hlt
    omega
  have hsurj : ∀ k, k < dom.length → k ∈ m :=
    nat_list_surj m dom.length hlen hbound hnodup
  have hre := reorder_eval dom sorted m hlen hslen hfacts hsurj
  refine ⟨⟨m, hm, hlen, hnodup, hbound, hsurj, hre, ?_⟩, fun old2 s2 => crm_none_iff s2 old2⟩
  rw [hre]
  exact hperm

end ReductionUtils

namespace ReductionUtils

theorem collect_rd : ∀ (l : List IterDomain) (i : Nat) (ra ranu : List Nat) (rd : Nat),
    (collectRFactor l i (ra, ranu, rd)).2.2 =
      rd + List.countP (fun id => id.isReduction) l := by
  intro l
  induction l with
  | nil => intro i ra ranu rd; simp [collectRFactor]
  | cons id rest ih =>
    intro i ra ranu rd
    unfold collectRFactor
    by_cases hred : id.isReduction = true
    · simp only [hred, Bool.not_true]
      by_cases hth : id.isThread = true
      · simp only [hth, if_true, if_false, Bool.false_eq_true]
        rw [ih]
        simp [List.countP_cons, hred]
        omega
      · simp only [hth, Bool.false_eq_true, if_false]
        rw [ih]
        simp [List.countP_cons, hred]
        omega
    · simp only [Bool.not_eq_true] at hred
      simp only [hred, Bool.not_false, if_true]
      rw [ih]
      simp [List.countP_cons, hred]

theorem collect_len : ∀ (l : List IterDomain) (i : Nat) (ra ranu : List Nat) (rd : Nat),
    (collectRFactor l i (ra, ranu, rd)).1.length =
      ra.length + List.countP (fun id => isStagingCandidate id) l := by
  intro l
  induction l with
  | nil => intro i ra ranu rd; simp [collectRFactor]
  | cons id rest ih =>
    intro i ra ranu rd
    unfold collectRFactor
    by_cases hred : id.isReduction = true
    · simp only [hred, Bool.not_true]
      by_cases hth : id.isThread = true
      · simp only [hth, if_true, if_false, Bool.false_eq_true]
        rw [ih]
        simp [List.countP_cons, isStagingCandidate, hred, hth]
      · simp only [hth, Bool.false_eq_true, if_false]
        rw [ih]
        simp [List.countP_cons, isStagingCandidate, hred, hth]
        omega
    · simp only [Bool.not_eq_true] at hred
      simp only [hred, Bool.not_false, if_true]
      rw [ih]
      simp [List.countP_cons, isStagingCandidate, hred]

end ReductionUtils

namespace ReductionUtils

theorem collect_mem_ra : ∀ (l : List IterDomain) (i : Nat) (ra ranu : List Nat)
    (rd : Nat) (j : Nat),
    (j ∈ (collectRFactor l i (ra, ranu, rd)).1 ↔
      j ∈ ra ∨ ∃ k, k < l.length ∧ j = i + k ∧
        isStagingCandidate (l.getD k dfltId) = true) := by
  intro l
  induction l with
  | nil =>
    intro i ra ranu rd j
    simp [collectRFactor]
  | cons id rest ih =>
    intro i ra ranu rd j
    unfold collectRFactor
    by_cases hred : id.isReduction = true
    · simp only [hred, Bool.not_true, Bool.false_eq_true, if_false]
      by_cases hth : id.isThread = true
      · simp only [hth, if_true]
        rw [ih]
        constructor
        · rintro (h | ⟨k, hk, hj, hc⟩)
          · exact Or.inl h
          · exact Or.inr ⟨k + 1, by simpa using hk, by omega, by simpa using hc⟩
        · rintro (h | ⟨k, hk, hj, hc⟩)
          · exact Or.inl h
          · cases k with
            | zero =>
              exfalso
              simp [isStagingCandidate, hred, hth] at hc
            | succ k' =>
              exact Or.inr ⟨k', by simpa using hk, by omega, by simpa using hc⟩
      · simp only [hth, Bool.false_eq_true, if_false]
        rw [ih]
        constructor
        · rintro (h | ⟨k, hk, hj, hc⟩)
          · rcases List.mem_append.mp h with h1 | h2
            · exact Or.inl h1
            · simp at h2
              exact Or.inr ⟨0, by simp, by omega,
                by simp [isStagingCandidate, hred, hth]⟩
          · exact Or.inr ⟨k + 1, by simpa using hk, by omega, by simpa using hc⟩
        · rintro (h | ⟨k, hk, hj, hc⟩)
          · exact Or.inl (List.mem_append.mpr (Or.inl h))
          · cases k with
            | zero =>
              refine Or.inl (List.mem_append.mpr (Or.inr ?_))
              simp
              omega
            | succ k' =>
              exact Or.inr ⟨k', by simpa using hk, by omega, by simpa using hc⟩
    · simp only [Bool.not_eq_true] at hred
      simp only [hred, Bool.not_false, if_true]
      rw [ih]
      constructor
      · rintro (h | ⟨k, hk, hj, hc⟩)
        · exact Or.inl h
        · exact Or.inr ⟨k + 1, by simpa using hk, by omega, by simpa using hc⟩
      · rintro (h | ⟨k, hk, hj, hc⟩)
        · exact Or.inl h
        · cases k with
          | zero =>
            exfalso
            simp [isStagingCandidate, hred] at hc
          | succ k' =>
            exact Or.inr ⟨k', by simpa using hk, by omega, by simpa using hc⟩

end ReductionUtils

namespace ReductionUtils

theorem collect_mem_ranu : ∀ (l : List IterDomain) (i : Nat) (ra ranu : List Nat)
    (rd : Nat) (j : Nat),
    (j ∈ (collectRFactor l i (ra, ranu, rd)).2.1 ↔
      j ∈ ranu ∨ ∃ k, k < l.length ∧ j = i + k ∧
        (isStagingCandidate (l.getD k dfltId) &&
          !isDegenerateUnswitch (l.getD k dfltId)) = true) := by
  intro l
  induction l with
  | nil =>
    intro i ra ranu rd j
    simp [collectRFactor]
  | cons id rest ih =>
    intro i ra ranu rd j
    unfold collectRFactor
    by_cases hred : id.isReduction = true
    · simp only [hred, Bool.not_true, Bool.false_eq_true, if_false]
      by_cases hth : id.isThread = true
      · simp only [hth, if_true]
        rw [ih]
        constructor
        · rintro (h | ⟨k, hk, hj, hc⟩)
          · exact Or.inl h
          · exact Or.inr ⟨k + 1, by simpa using hk, by omega, by simpa using hc⟩
        · rintro (h | ⟨k, hk, hj, hc⟩)
          · exact Or.inl h
          · cases k with
            | zero =>
              exfalso
              simp [isStagingCandidate, hred, hth] at hc
            | succ k' =>
              exact Or.inr ⟨k', by simpa using hk, by omega, by simpa using hc⟩
      · simp only [hth, Bool.false_eq_true, if_false]
        by_cases hdeg : (id.parallelType == ParallelType.Unswitch &&
            id.extent.isOneInt) = true
        · simp only [hdeg, Bool.not_true, Bool.false_eq_true, if_false]
          rw [ih]
          constructor
          · rintro (h | ⟨k, hk, hj, hc⟩)
            · exact Or.inl h
            · exact Or.inr ⟨k + 1, by simpa using hk, by omega, by simpa using hc⟩
          · rintro (h | ⟨k, hk, hj, hc⟩)
            · exact Or.inl h
            · cases k with
              | zero =>
                exfalso
                simp only [List.getD_cons_zero] at hc
                simp [isDegenerateUnswitch, hdeg] at hc
              | succ k' =>
                exact Or.inr ⟨k', by simpa using hk, by omega, by simpa using hc⟩
        · simp only [hdeg, Bool.not_false, if_true]
          rw [ih]
          constructor
          · rintro (h | ⟨k, hk, hj, hc⟩)
            · rcases List.mem_append.mp h with h1 | h2
              · exact Or.inl h1
              · simp at h2
                refine Or.inr ⟨0, by simp, by omega, ?_⟩
                simp only [List.getD_cons_zero]
                simp [isStagingCandidate, isDegenerateUnswitch, hred, hth]
                rw [Bool.and_eq_true] at hdeg
                push_neg at hdeg
                by_cases hw : (id.parallelType == ParallelType.Unswitch) = true
                · right
                  have hone := hdeg hw
                  simpa using hone
                · left
                  simpa using hw
            · exact Or.inr ⟨k + 1, by simpa using hk, by omega, by simpa using hc⟩
          · rintro (h | ⟨k, hk, hj, hc⟩)
            · exact Or.inl (List.mem_append.mpr (Or.inl h))
            · cases k with
              | zero =>
                refine Or.inl (List.mem_append.mpr (Or.inr ?_))
                simp
                omega
              | succ k' =>
                exact Or.inr ⟨k', by simpa using hk, by omega, by simpa using hc⟩
    · simp only [Bool.not_eq_true] at hred
      simp only [hred, Bool.not_false, if_true]
      rw [ih]
      constructor
      · rintro (h | ⟨k, hk, hj, hc⟩)
        · exact Or.inl h
        · exact Or.inr ⟨k + 1, by simpa using hk, by omega, by simpa using hc⟩
      · rintro (h | ⟨k, hk, hj, hc⟩)
        · exact Or.inl h
        · cases k with
          | zero =>
            exfalso
            simp [isStagingCandidate, hred] at hc
          | succ k' =>
            exact Or.inr ⟨k', by simpa using hk, by omega, by simpa using hc⟩

end ReductionUtils

namespace ReductionUtils

theorem count_cand_le (l : List IterDomain) :
    List.countP (fun id => isStagingCandidate id) l ≤
      List.countP (fun id => id.isReduction) l := by
  apply List.countP_mono_left
  intro x _ hx
  simp [isStagingCandidate] at hx
  simp [hx.1]

theorem cond_iff (l : List IterDomain) :
    (List.countP (fun id => id.isReduction) l =
      List.countP (fun id => isStagingCandidate id) l) ↔
      l.all (fun id => !id.isReduction || isStagingCandidate id) = true := by
  induction l with
  | nil => simp
  | cons x l ih =>
    have hle := count_cand_le l
    simp only [List.countP_cons, List.all_cons, Bool.and_eq_true]
    by_cases hx : x.isReduction = true <;> by_cases hc : isStagingCandidate x = true
    · simp only [hx, hc, if_true]
      constructor
      · intro h
        exact ⟨by simp [hx, hc], ih.mp (by omega)⟩
      · intro h
        have := ih.mpr h.2
        omega
    · simp only [hx, hc, Bool.false_eq_true, if_false, if_true]
      constructor
      · intro h
        omega
      · intro h
        exfalso
        have := h.1
        simp [hx, hc] at this
    · exfalso
      simp only [Bool.not_eq_true] at hx
      simp [isStagingCandidate, hx] at hc
    · simp only [Bool.not_eq_true] at hx
      simp only [hx, hc, Bool.false_eq_true, if_false]
      constructor
      · intro h
        exact ⟨by simp [hx], ih.mp (by omega)⟩
      · intro h
        have := ih.mpr h.2
        omega

/-- C3: in `sortAndRFactor`, the set of reduction axes promoted to
rfactor (staged) axes is exactly the spec's set: all positions holding
reduction axes that are not hardware-thread-parallel, except that when
every reduction axis of the domain is such a candidate, the positions
holding unswitched axes of extent exactly one are excluded. -/
theorem claim_C3 (dom : List IterDomain) (j : Nat) :
    j ∈ rfactorAxesOf dom ↔ j ∈ stagedAxesSpec dom := by
  have hrd := collect_rd dom 0 [] [] 0
  have hlen := collect_len dom 0 [] [] 0
  by_cases hcond : ((collectRFactor dom 0 ([], [], 0)).2.2 ==
      (collectRFactor dom 0 ([], [], 0)).1.length) = true
  · have hall : dom.all (fun id => !id.isReduction || isStagingCandidate id) = true := by
      apply (cond_iff dom).mp
      rw [hrd, hlen] at hcond
      simpa using hcond
    have hL : rfactorAxesOf dom = (collectRFactor dom 0 ([], [], 0)).2.1 := by
      unfold rfactorAxesOf
      simp only [hcond, if_true]
    have hR : stagedAxesSpec dom =
        ((List.range dom.length).filter
          (fun i => isStagingCandidate (dom.getD i dfltId))).filter
          (fun i => !isDegenerateUnswitch (dom.getD i dfltId)) := by
      unfold stagedAxesSpec
      simp only [hall, if_true]
    rw [hL, hR]
    rw [collect_mem_ranu dom 0 [] [] 0 j]
    simp only [List.mem_filter, List.mem_range, List.not_mem_nil, false_or]
    constructor
    · rintro ⟨k, hk, hj, hc⟩
      rw [Bool.and_eq_true] at hc
      subst hj
      simp only [Nat.zero_add]
      exact ⟨⟨hk, hc.1⟩, hc.2⟩
    · rintro ⟨⟨hj, hc1⟩, hc2⟩
      refine ⟨j, hj, by omega, ?_⟩
      rw [Bool.and_eq_true]
      exact ⟨hc1, hc2⟩
  · have hall : ¬(dom.all (fun id => !id.isReduction || isStagingCandidate id) = true) := by
      intro hall
      apply hcond
      rw [hrd, hlen]
      simpa using (cond_iff dom).mpr hall
    have hL : rfactorAxesOf dom = (collectRFactor dom 0 ([], [], 0)).1 := by
      unfold rfactorAxesOf
      simp only [hcond, Bool.false_eq_true, if_false]
    have hR : stagedAxesSpec dom =
        (List.range dom.length).filter
          (fun i => isStagingCandidate (dom.getD i dfltId)) := by
      unfold stagedAxesSpec
      rw [if_neg]
      simpa using hall
    rw [hL, hR]
    rw [collect_mem_ra dom 0 [] [] 0 j]
    simp only [List.mem_filter, List.mem_range, List.not_mem_nil, false_or]
    constructor
    · rintro ⟨k, hk, hj, hc⟩
      subst hj
      simp only [Nat.zero_add]
      exact ⟨hk, hc⟩
    · rintro ⟨hj, hc⟩
      exact ⟨j, hj, by omega, hc⟩

end ReductionUtils

namespace ReductionUtils

/-- C4: `scheduleReductionTV` fails fatally, before performing any axis
split or parallel assignment, whenever one of the five preconditions is
violated: too few axes for the requested layout; iteration-domain
vectorization together with a fastest-dimension reduction;
inner-reduction vectorization together with a non-fastest-dimension
reduction; multiple reductions per block without an iteration axis; an
iteration-domain unroll factor above one without an iteration axis. -/
theorem claim_C4 (rp : ReductionParams) (tv : TensorView) (has_iter_axis : Bool)
    (hviol :
      ¬(tv.nDims > max 0 (max (if rp.schedule_3D then 1 else 0)
          (if rp.schedule_3D then 2 else if has_iter_axis then 1 else 0))) ∨
      (rp.fastest_dim = true ∧ rp.vectorize_iter_dom = true) ∨
      (rp.fastest_dim = false ∧ rp.vectorize_inner_reduction = true) ∨
      (rp.multiple_reds_per_blk = true ∧ has_iter_axis = false) ∨
      (rp.unroll_factor_iter_dom > 1 ∧ has_iter_axis = false)) :
    ∃ msg, scheduleReductionTVModel rp tv has_iter_axis = Except.error msg := by
  unfold scheduleReductionTVModel
  by_cases h1 : tv.nDims > max 0 (max (if rp.schedule_3D then 1 else 0)
      (if rp.schedule_3D then 2 else if has_iter_axis then 1 else 0))
  · simp only [gt_iff_lt, Nat.max_lt] at h1
    by_cases h2 : (rp.fastest_dim && rp.vectorize_iter_dom) = true
    · exact ⟨"Cannot vectorize iteration domain on inner reductions.",
        by simp [h1.1, h1.2.1, h1.2.2, h2]⟩
    · by_cases h3 : (!rp.fastest_dim && rp.vectorize_inner_reduction) = true
      · exact ⟨"Cannot vectorize reduction domain on outer reductions.",
          by simp [h1.1, h1.2.1, h1.2.2, h2, h3]⟩
      · by_cases h4 : (rp.multiple_reds_per_blk && !has_iter_axis) = true
        · exact ⟨"Multiple reductions requires an iter domain, but one wasn't found.",
            by simp [h1.1, h1.2.1, h1.2.2, h2, h3, h4]⟩
        · by_cases h5 : ((rp.unroll_factor_iter_dom > 1 : Bool) && !has_iter_axis) = true
          · exact ⟨"Unrolling on iter domain requires an iter domain.",
              by simp [h1.1, h1.2.1, h1.2.2, h2, h3, h4, h5]⟩
          · exfalso
            rcases hviol with c1 | c2 | c3 | c4 | c5 <;> simp_all
  · refine ⟨"Issue in scheduling reduction tv, expecting more dimensions", ?_⟩
    rw [if_pos]
    rw [Bool.not_eq_true', decide_eq_false_iff_not]
    exact h1

end ReductionUtils

namespace ReductionUtils

theorem vecScan_cons (id : IterDomain) (rest : List IterDomain) (i : Nat) (pos : Int)
    (m : List (Int × Int)) :
    vecScan (id :: rest) i pos m =
      if id.parallelType == ParallelType.Vectorize then
        vecScan rest (i + 1) (Int.ofNat i) (m ++ [((i : Int), -1)])
      else if pos ≥ 0 then vecScan rest (i + 1) pos (m ++ [((i : Int), (i : Int) - 1)])
      else vecScan rest (i + 1) pos m := rfl

theorem vecScan_skip : ∀ (pre rest : List IterDomain) (i : Nat) (m : List (Int × Int)),
    (∀ x ∈ pre, x.parallelType ≠ ParallelType.Vectorize) →
    vecScan (pre ++ rest) i (-1) m = vecScan rest (i + pre.length) (-1) m := by
  intro pre
  induction pre with
  | nil => intro rest i m _; simp
  | cons x pre ih =>
    intro rest i m hnv
    have hx : (x.parallelType == ParallelType.Vectorize) = false := by
      have := hnv x (List.mem_cons_self x pre)
      simpa using this
    show vecScan (x :: (pre ++ rest)) i (-1) m = _
    rw [vecScan_cons, hx]
    simp only [Bool.false_eq_true, if_false]
    rw [if_neg (by omega)]
    rw [ih rest (i + 1) m (fun y hy => hnv y (List.mem_cons_of_mem x hy))]
    have harr : i + 1 + pre.length = i + (x :: pre).length := by
      simp only [List.length_cons]
      omega
    rw [harr]

theorem vecScan_after : ∀ (post : List IterDomain) (i : Nat) (p' : Int)
    (m : List (Int × Int)),
    (∀ x ∈ post, x.parallelType ≠ ParallelType.Vectorize) → 0 ≤ p' →
    vecScan post i p' m = (p', m ++ vecEnts i post.length) := by
  intro post
  induction post with
  | nil => intro i p' m _ _; simp [vecScan, vecEnts]
  | cons x post ih =>
    intro i p' m hnv hp
    have hx : (x.parallelType == ParallelType.Vectorize) = false := by
      have := hnv x (List.mem_cons_self x post)
      simpa using this
    rw [vecScan_cons, hx]
    simp only [Bool.false_eq_true, if_false]
    rw [if_pos (by omega)]
    rw [ih (i + 1) p' (m ++ [((i : Int), (i : Int) - 1)])
      (fun y hy => hnv y (List.mem_cons_of_mem x hy)) hp]
    simp [vecEnts]

theorem vecScan_full (pre post : List IterDomain) (v : IterDomain)
    (hv : v.parallelType = ParallelType.Vectorize)
    (hpre : ∀ x ∈ pre, x.parallelType ≠ ParallelType.Vectorize)
    (hpost : ∀ x ∈ post, x.parallelType ≠ ParallelType.Vectorize) :
    vecScan (pre ++ v :: post) 0 (-1) [] =
      ((pre.length : Int), ((pre.length : Int), -1) :: vecEnts (pre.length + 1) post.length) := by
  rw [vecScan_skip pre (v :: post) 0 [] hpre]
  rw [vecScan_cons]
  rw [if_pos (by simp [hv])]
  rw [vecScan_after post (0 + pre.length + 1) _ _ hpost (by exact Int.ofNat_nonneg _)]
  simp

end ReductionUtils

namespace ReductionUtils

theorem normalizePos_negOne (n : Nat) (hn : 1 ≤ n) : normalizePos n (-1) = n - 1 := by
  unfold normalizePos
  rw [if_pos (by omega)]
  omega

theorem vecEnts_map_norm (n : Nat) :
    ∀ (b i : Nat), 1 ≤ i →
      (vecEnts i b).map (fun q => (normalizePos n q.1, normalizePos n q.2)) =
        natEnts i b := by
  intro b
  induction b with
  | zero => intro i _; simp [vecEnts, natEnts]
  | succ b ih =>
    intro i hi
    simp only [vecEnts, natEnts, List.map_cons]
    rw [ih (i + 1) (by omega)]
    have h1 : normalizePos n (i : Int) = i := normalizePos_natCast n i
    have h2 : normalizePos n ((i : Int) - 1) = i - 1 := by
      unfold normalizePos
      rw [if_neg (by omega)]
      omega
    rw [h1, h2]

theorem natEnts_any_fst : ∀ (b i k : Nat),
    ((natEnts i b).any (fun q => q.1 == k) = true) ↔ (i ≤ k ∧ k < i + b) := by
  intro b
  induction b with
  | zero => intro i k; simp [natEnts]
  | succ b ih =>
    intro i k
    simp only [natEnts, List.any_cons, Bool.or_eq_true, beq_iff_eq, ih i k, ih (i + 1) k]
    omega

theorem natEnts_any_snd : ∀ (b i k : Nat), 1 ≤ i →
    (((natEnts i b).any (fun q => q.2 == k)) = true ↔
      (i ≤ k + 1 ∧ k + 1 < i + b)) := by
  intro b
  induction b with
  | zero => intro i k hi; simp [natEnts]
  | succ b ih =>
    intro i k hi
    simp only [natEnts, List.any_cons, Bool.or_eq_true, beq_iff_eq,
      ih (i + 1) k (by omega)]
    omega

theorem natEnts_find : ∀ (b i j : Nat), 1 ≤ i →
    (natEnts i b).find? (fun q => q.2 == j) =
      if i ≤ j + 1 ∧ j + 1 < i + b then some (j + 1, j) else none := by
  intro b
  induction b with
  | zero =>
    intro i j hi
    rw [if_neg (by omega)]
    simp [natEnts]
  | succ b ih =>
    intro i j hi
    rw [show natEnts i (b + 1) = ((i, i - 1) :: natEnts (i + 1) b) from rfl]
    by_cases hij : i - 1 = j
    · have hfind : List.find? (fun (q : Nat × Nat) => q.2 == j)
          ((i, i - 1) :: natEnts (i + 1) b) = some (i, i - 1) :=
        List.find?_cons_of_pos _ (by simp [hij])
      rw [hfind, if_pos (by omega)]
      have h1 : (i, i - 1) = (j + 1, j) := by
        have h2 : i = j + 1 := by omega
        rw [h2]
        simp
      rw [h1]
    · have hstep : List.find? (fun (q : Nat × Nat) => q.2 == j)
          ((i, i - 1) :: natEnts (i + 1) b) =
          List.find? (fun (q : Nat × Nat) => q.2 == j) (natEnts (i + 1) b) :=
        List.find?_cons_of_neg _ (by simp [hij])
      rw [hstep, ih (i + 1) j (by omega)]
      by_cases hc : i + 1 ≤ j + 1 ∧ j + 1 < i + 1 + b
      · rw [if_pos hc, if_pos (by omega)]
      · rw [if_neg hc, if_neg (by omega)]

theorem filter_range_decide (P : Nat → Bool) :
    ∀ (n p : Nat), p ≤ n → (∀ k, k < n → (P k = true ↔ k < p)) →
      (List.range n).filter P = List.range p := by
  intro n
  induction n with
  | zero =>
    intro p hp _
    have : p = 0 := by omega
    subst this
    rfl
  | succ n ih =>
    intro p hp hP
    rw [List.range_succ, List.filter_append]
    by_cases hpn : p ≤ n
    · have hPn : P n = false := by
        rcases h : P n with _ | _
        · rfl
        · exfalso
          have := (hP n (by omega)).mp h
          omega
      rw [ih p hpn (fun k hk => hP k (by omega))]
      simp [hPn]
    · have hpe : p = n + 1 := by omega
      subst hpe
      have hPn : P n = true := (hP n (by omega)).mpr (by omega)
      rw [ih n (by omega) (fun k hk => by
        rw [hP k (by omega)]
        omega)]
      simp [hPn, List.range_succ]

end ReductionUtils

namespace ReductionUtils

theorem getElem_mid (pre : List IterDomain) (id : IterDomain) (post : List IterDomain)
    (h : pre.length < (pre ++ id :: post).length) :
    (pre ++ id :: post)[pre.length] = id := by
  exact get_mid pre id post h

theorem vecReorder_ok (pre post : List IterDomain) (v : IterDomain)
    (hv : v.parallelType = ParallelType.Vectorize)
    (hpre : ∀ x ∈ pre, x.parallelType ≠ ParallelType.Vectorize)
    (hpost : ∀ x ∈ post, x.parallelType ≠ ParallelType.Vectorize) :
    vecReorderPhase ⟨pre ++ v :: post⟩ = Except.ok ⟨pre ++ post ++ [v]⟩ := by
  have hn : (pre ++ v :: post).length = pre.length + post.length + 1 := by
    simp
    omega
  unfold vecReorderPhase
  rw [show (⟨pre ++ v :: post⟩ : TensorView).domain = pre ++ v :: post from rfl]
  rw [vecScan_full pre post v hv hpre hpost]
  simp only
  rw [if_neg (by simp)]
  congr 1
  unfold reorderTv
  simp only
  rw [hn]
  set p := pre.length with hp
  set b := post.length with hb
  set n := p + b + 1 with hndef
  have hmap : (((((p : Int)), (-1 : Int)) :: vecEnts (p + 1) b).map
      (fun q => (normalizePos n q.1, normalizePos n q.2))) =
      ((p, n - 1) :: natEnts (p + 1) b) := by
    simp only [List.map_cons]
    rw [vecEnts_map_norm n b (p + 1) (by omega)]
    rw [normalizePos_natCast, normalizePos_negOne n (by omega)]
  rw [hmap]
  have hany1 : ∀ k, ((((p, n - 1) :: natEnts (p + 1) b).any
      (fun q => q.1 == k)) = true) ↔ (p ≤ k ∧ k < n) := by
    intro k
    simp only [List.any_cons, Bool.or_eq_true, beq_iff_eq, natEnts_any_fst]
    omega
  have hany2 : ∀ k, ((((p, n - 1) :: natEnts (p + 1) b).any
      (fun q => q.2 == k)) = true) ↔ (p ≤ k ∧ k < n) := by
    intro k
    simp only [List.any_cons, Bool.or_eq_true, beq_iff_eq,
      natEnts_any_snd b (p + 1) k (by omega)]
    omega
  have hou : ((List.range n).filter
      (fun k => !(((p, n - 1) :: natEnts (p + 1) b).any (fun q => q.1 == k)))) =
      List.range p := by
    apply filter_range_decide _ n p (by omega)
    intro k hk
    rcases h : ((p, n - 1) :: natEnts (p + 1) b).any (fun q => q.1 == k) with _ | _
    · simp only [Bool.not_false]
      have h2 := hany1 k
      rw [h] at h2
      simp at h2
      simp
      omega
    · simp only [Bool.not_true]
      have h2 := (hany1 k).mp h
      simp
      omega
  have hun : ((List.range n).filter
      (fun k => !(((p, n - 1) :: natEnts (p + 1) b).any (fun q => q.2 == k)))) =
      List.range p := by
    apply filter_range_decide _ n p (by omega)
    intro k hk
    rcases h : ((p, n - 1) :: natEnts (p + 1) b).any (fun q => q.2 == k) with _ | _
    · simp only [Bool.not_false]
      have h2 := hany2 k
      rw [h] at h2
      simp at h2
      simp
      omega
    · simp only [Bool.not_true]
      have h2 := (hany2 k).mp h
      simp
      omega
  rw [hou, hun]
  congr 1
  apply List.ext_getElem
  · simp
    omega
  · intro j hj1 hj2
    simp only [List.getElem_map, List.getElem_range]
    have hjn : j < n := by simpa using hj1
    by_cases hjlast : j = n - 1
    · -- the vectorized axis goes to the last position
      have hjq : j = (pre ++ post).length := by
        simp
        try omega
      subst hjq
      have hfind : (((p, n - 1) :: natEnts (p + 1) b).find?
          (fun q => q.2 == (pre ++ post).length)) = some (p, n - 1) :=
        List.find?_cons_of_pos _ (by simp; try omega)
      rw [hfind]
      simp only
      have hpn : p < (pre ++ v :: post).length := by rw [hn]; omega
      rw [List.getD_eq_getElem _ dfltId hpn]
      rw [getElem_mid pre v post hpn]
      rw [List.getElem_concat_length]
      rfl
    · have hstep : (((p, n - 1) :: natEnts (p + 1) b).find?
          (fun q => q.2 == j)) = (natEnts (p + 1) b).find? (fun q => q.2 == j) :=
        List.find?_cons_of_neg _ (by simp [hjlast]; omega)
      rw [hstep, natEnts_find b (p + 1) j (by omega)]
      by_cases hmid : p + 1 ≤ j + 1 ∧ j + 1 < p + 1 + b
      · rw [if_pos hmid]
        simp only
        have hj1n : j + 1 < (pre ++ v :: post).length := by rw [hn]; omega
        rw [List.getD_eq_getElem _ dfltId hj1n]
        have hjpb : j - p < post.length := by omega
        have hLHS : (pre ++ v :: post)[j + 1] = post[j - p] := by
          rw [List.getElem_append_right (by omega : pre.length ≤ j + 1)]
          have hidx2 : j + 1 - pre.length = (j - p) + 1 := by omega
          simp only [hidx2]
          rw [List.getElem_cons_succ]
        rw [hLHS]
        have hRHS : (pre ++ post ++ [v])[j] = post[j - p] := by
          rw [List.getElem_append_left (by simp; omega : j < (pre ++ post).length)]
          rw [List.getElem_append_right (by omega : pre.length ≤ j)]
        rw [hRHS]
      · rw [if_neg hmid]
        simp only
        have hjp : j < p := by omega
        have hjmem : j ∈ List.range p := List.mem_range.mpr hjp
        have hidx : (List.range p).indexOf j < (List.range p).length :=
          List.indexOf_lt_length.mpr hjmem
        rw [List.getD_eq_getElem (List.range p) j hidx]
        rw [List.getElem_indexOf hidx]
        have hjlt : j < (pre ++ v :: post).length := by rw [hn]; omega
        rw [List.getD_eq_getElem _ dfltId hjlt]
        have hjpre : j < pre.length := by omega
        have hLHS : (pre ++ v :: post)[j] = pre[j] := by
          rw [List.getElem_append_left hjpre]
        rw [hLHS]
        have hRHS : (pre ++ post ++ [v])[j] = pre[j] := by
          rw [List.getElem_append_left (by simp; omega : j < (pre ++ post).length)]
          rw [List.getElem_append_left hjpre]
        rw [hRHS]

end ReductionUtils

namespace ReductionUtils

theorem vecReorder_fatal (tv : TensorView)
    (h : ∀ x ∈ tv.domain, x.parallelType ≠ ParallelType.Vectorize) :
    vecReorderPhase tv = Except.error ("Vectorized ID not found") := by
  unfold vecReorderPhase
  have hs : vecScan tv.domain 0 (-1) [] = (-1, []) := by
    have h2 := vecScan_skip tv.domain [] 0 [] h
    simpa [vecScan] using h2
  rw [hs]
  simp

/-- C6: the vectorized-axis relocation phase of `scheduleReductionTV`
moves the vectorized axis to the innermost (last) position, shifting
every axis after it inward by one, and aborts fatally with a diagnostic
when no axis carries the vectorize assignment. -/
theorem claim_C6 (tv : TensorView) :
    (∀ pre v post, tv.domain = pre ++ v :: post →
      v.parallelType = ParallelType.Vectorize →
      (∀ x ∈ pre, x.parallelType ≠ ParallelType.Vectorize) →
      (∀ x ∈ post, x.parallelType ≠ ParallelType.Vectorize) →
      vecReorderPhase tv = Except.ok ⟨pre ++ post ++ [v]⟩) ∧
    ((∀ x ∈ tv.domain, x.parallelType ≠ ParallelType.Vectorize) →
      vecReorderPhase tv = Except.error ("Vectorized ID not found")) := by
  constructor
  · intro pre v post hdom hv hpre hpost
    obtain ⟨dom⟩ := tv
    simp only at hdom
    subst hdom
    exact vecReorder_ok pre post v hv hpre hpost
  · exact vecReorder_fatal tv

end ReductionUtils

namespace ReductionUtils

theorem mem_rbpt_aux : ∀ (l : List IterDomain) (acc : List ParallelType) (pt : ParallelType),
    pt ∈ (l.foldl (fun s id =>
      if id.isReduction && isParallelTypeBlockDim id.parallelType &&
          !(s.contains id.parallelType)
      then s ++ [id.parallelType] else s) acc) ↔
    pt ∈ acc ∨ ∃ id ∈ l, id.isReduction = true ∧
      isParallelTypeBlockDim id.parallelType = true ∧ id.parallelType = pt := by
  intro l
  induction l with
  | nil => intro acc pt; simp
  | cons id rest ih =>
    intro acc pt
    simp only [List.foldl_cons]
    by_cases hcond : (id.isReduction && isParallelTypeBlockDim id.parallelType &&
        !(acc.contains id.parallelType)) = true
    · rw [if_pos hcond]
      rw [ih]
      simp only [Bool.and_eq_true, Bool.not_eq_true'] at hcond
      constructor
      · rintro (hacc | hex)
        · rcases List.mem_append.mp hacc with h1 | h2
          · exact Or.inl h1
          · simp at h2
            exact Or.inr ⟨id, List.mem_cons_self id rest,
              hcond.1.1, hcond.1.2, h2.symm⟩
        · rcases hex with ⟨x, hx, hf⟩
          exact Or.inr ⟨x, List.mem_cons_of_mem id hx, hf⟩
      · rintro (hacc | ⟨x, hx, h1, h2, h3⟩)
        · exact Or.inl (List.mem_append.mpr (Or.inl hacc))
        · rcases List.mem_cons.mp hx with hx1 | hx2
          · subst hx1
            exact Or.inl (List.mem_append.mpr (Or.inr (by simp [h3])))
          · exact Or.inr ⟨x, hx2, h1, h2, h3⟩
    · rw [if_neg hcond]
      rw [ih]
      constructor
      · rintro (hacc | ⟨x, hx, hf⟩)
        · exact Or.inl hacc
        · exact Or.inr ⟨x, List.mem_cons_of_mem id hx, hf⟩
      · rintro (hacc | ⟨x, hx, h1, h2, h3⟩)
        · exact Or.inl hacc
        · rcases List.mem_cons.mp hx with hx1 | hx2
          · subst hx1
            -- the guard failed: since this axis is reduction and blockdim,
            -- its type is already in acc
            left
            have hc : acc.contains x.parallelType = true := by
              by_contra hc
              apply hcond
              rw [Bool.and_eq_true, Bool.and_eq_true]
              refine ⟨⟨h1, h2⟩, ?_⟩
              rw [Bool.not_eq_true']
              simpa using hc
            rw [← h3]
            simpa using hc
          · exact Or.inr ⟨x, hx2, h1, h2, h3⟩

theorem isGridAllreduce_iff (tv : FTv) :
    isGridAllreduce tv = true ↔ gridAllreduceSpec tv := by
  unfold isGridAllreduce gridAllreduceSpec
  by_cases hmem : tv.memoryType = MemoryType.Local
  · rw [if_neg (by simp [hmem])]
    simp only [hmem, true_and]
    rw [List.any_eq_true]
    constructor
    · rintro ⟨bdom, hbdom, hany⟩
      rw [List.any_eq_true] at hany
      rcases hany with ⟨bid, hbid, hp⟩
      rw [Bool.and_eq_true] at hp
      have hpt := (mem_rbpt_aux tv.domain [] bid.parallelType).mp
        (by simpa [reductionBlockParallelTypes] using hp.2)
      rcases hpt with h1 | ⟨x, hx, hr, hb, hpeq⟩
      · simp at h1
      · exact ⟨bid.parallelType, hp.1, ⟨x, hx, hr, hpeq⟩, ⟨bdom, hbdom, bid, hbid, rfl⟩⟩
    · rintro ⟨pt, hbd, ⟨x, hx, hr, hpeq⟩, ⟨bdom, hbdom, bid, hbid, hbpt⟩⟩
      refine ⟨bdom, hbdom, ?_⟩
      rw [List.any_eq_true]
      refine ⟨bid, hbid, ?_⟩
      rw [Bool.and_eq_true]
      constructor
      · rw [hbpt]
        exact hbd
      · have hmem2 := (mem_rbpt_aux tv.domain [] pt).mpr
          (Or.inr ⟨x, hx, hr, by rw [hpeq]; exact hbd, hpeq⟩)
        rw [hbpt]
        simpa [reductionBlockParallelTypes] using hmem2
  · rw [if_pos (by simp [hmem])]
    simp [hmem]

end ReductionUtils

namespace ReductionUtils

theorem ftv_id_inj (tvs : List FTv) (hnd : (tvs.map (fun tv => tv.tvId)).Nodup)
    (t : FTv) (ht : t ∈ tvs) (k : Nat) (hk : k < tvs.length)
    (heq : t.tvId = (tvs.getD k dfltFTv).tvId) : t = tvs.getD k dfltFTv := by
  rcases List.mem_iff_get.mp ht with ⟨⟨j, hj⟩, hgetj⟩
  rw [List.getD_eq_getElem tvs dfltFTv hk] at heq ⊢
  rw [← hgetj] at heq ⊢
  simp only [List.get_eq_getElem] at heq ⊢
  have hjm : j < (tvs.map (fun tv => tv.tvId)).length := by simpa using hj
  have hkm : k < (tvs.map (fun tv => tv.tvId)).length := by simpa using hk
  have hmj : (tvs.map (fun tv => tv.tvId))[j] =
      (tvs.map (fun tv => tv.tvId))[k] := by
    simp only [List.getElem_map]
    exact heq
  have := (List.Nodup.getElem_inj_iff hnd).mp hmj
  subst this
  rfl

/-- C7: a reduction view is detected as a grid all-reduce exactly when
it resides in local memory and some block-level parallel dimension used
by one of its reduction axes also parallelizes a broadcast consuming its
result; the regrouping step of `multiReductionInliner` propagates the
group assignment from the original reduction view onto exactly the
other reduction views satisfying that condition, and leaves every other
view unchanged. -/
theorem claim_C7 (reduction_tv : FTv) (reduction_tvs : List FTv)
    (hnd : (reduction_tvs.map (fun tv => tv.tvId)).Nodup) :
    (∀ tv : FTv, isGridAllreduce tv = true ↔ gridAllreduceSpec tv) ∧
    (allreduceGroupStep reduction_tv reduction_tvs).length = reduction_tvs.length ∧
    (∀ k, k < reduction_tvs.length →
      (((reduction_tvs.getD k dfltFTv).tvId ≠ reduction_tv.tvId ∧
          gridAllreduceSpec (reduction_tvs.getD k dfltFTv)) →
        (allreduceGroupStep reduction_tv reduction_tvs).getD k dfltFTv =
          { reduction_tvs.getD k dfltFTv with domain :=
              (propagateTypesOnto reduction_tv.domain [ParallelType.Group]
                (reduction_tvs.getD k dfltFTv).domain) }) ∧
      (¬((reduction_tvs.getD k dfltFTv).tvId ≠ reduction_tv.tvId ∧
          gridAllreduceSpec (reduction_tvs.getD k dfltFTv)) →
        (allreduceGroupStep reduction_tv reduction_tvs).getD k dfltFTv =
          reduction_tvs.getD k dfltFTv)) := by
  refine ⟨isGridAllreduce_iff, ?_, ?_⟩
  · unfold allreduceGroupStep
    by_cases he : ((reduction_tvs.filter (fun tv => tv.tvId != reduction_tv.tvId &&
        isGridAllreduce tv)).map (fun tv => tv.tvId)).isEmpty = true
    · rw [if_pos he]
    · rw [if_neg he]
      unfold parallelizeAllLikeModel
      simp
  · intro k hk
    have hmemk : reduction_tvs.getD k dfltFTv ∈ reduction_tvs := by
      rw [List.getD_eq_getElem reduction_tvs dfltFTv hk]
      exact List.getElem_mem hk
    have hpredchar : ((reduction_tvs.getD k dfltFTv).tvId != reduction_tv.tvId &&
        isGridAllreduce (reduction_tvs.getD k dfltFTv)) = true ↔
        ((reduction_tvs.getD k dfltFTv).tvId ≠ reduction_tv.tvId ∧
          gridAllreduceSpec (reduction_tvs.getD k dfltFTv)) := by
      rw [Bool.and_eq_true, isGridAllreduce_iff]
      simp
    unfold allreduceGroupStep
    by_cases he : ((reduction_tvs.filter (fun tv => tv.tvId != reduction_tv.tvId &&
        isGridAllreduce tv)).map (fun tv => tv.tvId)).isEmpty = true
    · rw [if_pos he]
      constructor
      · intro hcond
        exfalso
        have hpred := hpredchar.mpr hcond
        have hmemf : reduction_tvs.getD k dfltFTv ∈
            reduction_tvs.filter (fun tv => tv.tvId != reduction_tv.tvId &&
              isGridAllreduce tv) :=
          List.mem_filter.mpr ⟨hmemk, hpred⟩
        rw [List.isEmpty_iff] at he
        rw [List.map_eq_nil] at he
        rw [he] at hmemf
        simp at hmemf
      · intro _
        rfl
    · rw [if_neg he]
      have hcontains : ∀ tv2 : FTv, tv2 ∈ reduction_tvs →
          ((((reduction_tvs.filter (fun tv => tv.tvId != reduction_tv.tvId &&
            isGridAllreduce tv)).map (fun tv => tv.tvId)).contains tv2.tvId) = true ↔
          (tv2.tvId != reduction_tv.tvId && isGridAllreduce tv2) = true) := by
        intro tv2 hmem2
        constructor
        · intro hc
          simp only [List.contains_eq_any_beq, List.any_eq_true] at hc
          rcases hc with ⟨x, hx, hxeq⟩
          rcases List.mem_map.mp hx with ⟨t, htf, hteq⟩
          rcases List.mem_filter.mp htf with ⟨htmem, htpred⟩
          have hteq2 : t.tvId = tv2.tvId := by
            rw [hteq]
            exact (by simpa using hxeq : tv2.tvId = x).symm
          rcases List.mem_iff_get.mp hmem2 with ⟨⟨k2, hk2⟩, hget2⟩
          have ht2 : t = reduction_tvs.getD k2 dfltFTv := by
            apply ftv_id_inj reduction_tvs hnd t htmem k2 hk2
            rw [hteq2, ← hget2]
            rw [List.getD_eq_getElem reduction_tvs dfltFTv hk2]
            simp [List.get_eq_getElem]
          rw [ht2] at htpred
          have : reduction_tvs.getD k2 dfltFTv = tv2 := by
            rw [List.getD_eq_getElem reduction_tvs dfltFTv hk2, ← hget2]
            simp [List.get_eq_getElem]
          rw [this] at htpred
          exact htpred
        · intro hpred
          simp only [List.contains_eq_any_beq, List.any_eq_true]
          refine ⟨tv2.tvId, List.mem_map.mpr ⟨tv2, List.mem_filter.mpr
            ⟨hmem2, hpred⟩, rfl⟩, by simp⟩
      unfold parallelizeAllLikeModel
      constructor
      · intro hcond
        have hpred := hpredchar.mpr hcond
        have hsel := (hcontains _ hmemk).mpr hpred
        rw [List.getD_eq_getElem _ dfltFTv (by simpa using hk)]
        rw [List.getElem_map]
        rw [← List.getD_eq_getElem reduction_tvs dfltFTv hk]
        rw [if_pos hsel]
      · intro hcond
        have hpred : ¬(((reduction_tvs.getD k dfltFTv).tvId != reduction_tv.tvId &&
            isGridAllreduce (reduction_tvs.getD k dfltFTv)) = true) := by
          intro hp
          exact hcond (hpredchar.mp hp)
        have hsel : ((((reduction_tvs.filter (fun tv => tv.tvId != reduction_tv.tvId &&
            isGridAllreduce tv)).map (fun tv => tv.tvId)).contains
              (reduction_tvs.getD k dfltFTv).tvId) = false) := by
          rw [← Bool.not_eq_true]
          intro hc
          exact hpred ((hcontains _ hmemk).mp hc)
        rw [List.getD_eq_getElem _ dfltFTv (by simpa using hk)]
        rw [List.getElem_map]
        rw [← List.getD_eq_getElem reduction_tvs dfltFTv hk]
        rw [if_neg (show ¬((((reduction_tvs.filter (fun tv =>
            tv.tvId != reduction_tv.tvId && isGridAllreduce tv)).map
              (fun tv => tv.tvId)).contains
                (reduction_tvs.getD k dfltFTv).tvId) = true) by rw [hsel]; simp)]

end ReductionUtils

namespace ReductionUtils

/-- C9 counterexample: with an iteration-domain unroll factor of one and
outer grid persistence off, the iteration axis receives no unswitch
split, contradicting the claim that every non-OGP regime applies
one. -/
theorem claim_C9_counterexample : ¬ claimC9Original := by
  intro h
  have := h.1 rpBase ⟨[dfltId]⟩ ⟨[dfltId]⟩ (by decide) rfl
  exact absurd this (by decide)

/-- C9 witness: with an unroll factor of two and outer grid persistence
off, exactly one unswitch split is applied. -/
theorem claim_C9_witness : unswitchCount ⟨[dfltId]⟩ = 0 ∧
    scheduleIterDomain rpUnsw ⟨[dfltId]⟩ = Except.ok tvC9out ∧
    unswitchCount tvC9out = (if rpUnsw.unroll_factor_iter_dom > 1 &&
      !(isOuterGridPersistence rpUnsw) then 1 else 0) :=
  ⟨by decide, rfl,
    claim_C9 rpUnsw ⟨[dfltId]⟩ tvC9out (by decide) rfl⟩

/-- C5: the outer-grid-persistence regime applies exactly when the
kernel is persistent, the inner reduction is cross-grid and the
reduction is not the fastest dimension; in that regime a non-static
block y-dimension is fatal, and otherwise the inner reduction axis is
split by the static per-block thread count, then by the persistent batch
size with the grid dimension assigned to the outer split, and the whole
persistent buffer axis is covered by a single outer unswitch exactly
when the inner-reduction unroll factor equals the batches per block,
while otherwise that axis is further split by the unroll factor and
only the inner sub-split is unswitched (`claimedOgpInnerLayout`). -/
theorem claim_C5 (rp : ReductionParams) (pre : List IterDomain) (id : IterDomain)
    (post : List IterDomain) :
    (isOuterGridPersistence rp = true ↔
      (rp.persistent_kernel = true ∧ rp.cross_grid_inner_reduction = true ∧
        rp.fastest_dim = false)) ∧
    (isOuterGridPersistence rp = true → rp.static_bdimy = false →
      scheduleInnerReduction rp ⟨pre ++ id :: post⟩ pre.length =
        Except.error ("blockDim.y must be static")) ∧
    (isOuterGridPersistence rp = true → rp.static_bdimy = true →
      scheduleInnerReduction rp ⟨pre ++ id :: post⟩ pre.length =
        Except.ok ⟨pre ++ claimedOgpInnerLayout rp id ++ post⟩) := by
  refine ⟨?_, ?_, fun hogp hstat => sched_inner_ogp rp pre id post hogp hstat⟩
  · rw [show (rp.persistent_kernel = true ∧ rp.cross_grid_inner_reduction = true ∧
        rp.fastest_dim = false) ↔ ((rp.persistent_kernel = true ∧
        rp.cross_grid_inner_reduction = true) ∧ rp.fastest_dim = false) from and_assoc.symm]
    simp [isOuterGridPersistence, Bool.and_eq_true, Bool.not_eq_true']
  · intro hogp hstat
    unfold scheduleInnerReduction
    rw [hogp]
    simp [hstat]

end ReductionUtils

namespace ReductionUtils

theorem exceptUVM_no_unrolled : ∀ pt : ParallelType,
    ((allParallelTypesExceptModel [ParallelType.Unroll, ParallelType.Vectorize,
      ParallelType.MisalignedVectorize]).contains pt) = true →
    isUnrolledLike pt = false := by decide

theorem exceptUVM_no_serial : ∀ pt : ParallelType,
    ((allParallelTypesExceptModel [ParallelType.Unroll, ParallelType.Vectorize,
      ParallelType.MisalignedVectorize]).contains pt) = true →
    pt ≠ ParallelType.Serial := by decide

theorem propagateTypesOnto_length (rd : List IterDomain) (ts : List ParallelType)
    (dom : List IterDomain) : (propagateTypesOnto rd ts dom).length = dom.length := by
  simp [propagateTypesOnto]

theorem propagateTypesOnto_getD (rd : List IterDomain) (ts : List ParallelType)
    (dom : List IterDomain) (j : Nat) (hj : j < dom.length) :
    (propagateTypesOnto rd ts dom).getD j dfltId =
      (match rd.get? j with
       | some r => if ts.contains r.parallelType then
           { dom.getD j dfltId with parallelType := r.parallelType }
         else dom.getD j dfltId
       | none => dom.getD j dfltId) := by
  unfold propagateTypesOnto
  rw [List.getD_eq_getElem _ dfltId (by simpa [propagateTypesOnto] using hj)]
  rw [List.getElem_map]
  rw [List.getElem_enum]
  rw [List.getD_eq_getElem dom dfltId hj]

theorem inliner_notUnrolled_tvs (rp : ReductionParams) (fm : FusionModel)
    (reductionId referenceId : Nat) (rids cins : List Nat)
    (couts : List (Nat × Nat)) (dums vios : List Nat) (ref : FTv)
    (hnu : rp.isUnrolled = false)
    (href : findTv fm.tvs referenceId = some ref) :
    (multiReductionInlinerModel rp fm reductionId referenceId rids cins couts
      dums vios).tvs = fm.tvs.map (fun tv =>
        { tv with domain := (propagateTypesOnto ref.domain
            (allParallelTypesExceptModel [ParallelType.Unroll, ParallelType.Vectorize,
              ParallelType.MisalignedVectorize]) tv.domain) }) := by
  unfold multiReductionInlinerModel
  rw [href]
  rw [hnu]
  simp [parallelizeAllLikeModel]

/-- C10: when the schedule requests neither unrolling nor vectorization,
`multiReductionInliner` runs only the general parallel-type propagation
(which excludes unroll, vectorize and misaligned-vectorize): every
view keeps its axis count, axes carrying an unroll-like assignment are
unchanged and no axis gains one, no assignment is stripped back to
serial, and no view gains the group assignment (the reference carries
no group axis, and views are positionally aligned with the reference on
unroll-like axes); grid-all-reduce detection and regrouping are skipped
entirely. -/
theorem claim_C10 (rp : ReductionParams) (fm : FusionModel)
    (reductionId referenceId : Nat) (rids cins : List Nat)
    (couts : List (Nat × Nat)) (dums vios : List Nat) (ref : FTv) (fm' : FusionModel)
    (hnu : rp.isUnrolled = false)
    (href : findTv fm.tvs referenceId = some ref)
    (heq : multiReductionInlinerModel rp fm reductionId referenceId rids cins couts
      dums vios = fm')
    (hng : ∀ id ∈ ref.domain, id.parallelType ≠ ParallelType.Group)
    (hali : ∀ tv ∈ fm.tvs, ∀ j, j < ref.domain.length →
      isUnrolledLike ((tv.domain.getD j dfltId).parallelType) = true →
      isUnrolledLike ((ref.domain.getD j dfltId).parallelType) = true) :
    fm'.tvs.length = fm.tvs.length ∧
    (∀ k, k < fm.tvs.length →
      (fm'.tvs.getD k dfltFTv).tvId = (fm.tvs.getD k dfltFTv).tvId ∧
      (fm'.tvs.getD k dfltFTv).domain.length = (fm.tvs.getD k dfltFTv).domain.length ∧
      ∀ j, j < (fm.tvs.getD k dfltFTv).domain.length →
        (isUnrolledLike (((fm.tvs.getD k dfltFTv).domain.getD j dfltId).parallelType) =
            true →
          (fm'.tvs.getD k dfltFTv).domain.getD j dfltId =
            (fm.tvs.getD k dfltFTv).domain.getD j dfltId) ∧
        (isUnrolledLike (((fm'.tvs.getD k dfltFTv).domain.getD j dfltId).parallelType) =
            true →
          (fm'.tvs.getD k dfltFTv).domain.getD j dfltId =
            (fm.tvs.getD k dfltFTv).domain.getD j dfltId) ∧
        (((fm'.tvs.getD k dfltFTv).domain.getD j dfltId).parallelType =
            ParallelType.Serial →
          (fm'.tvs.getD k dfltFTv).domain.getD j dfltId =
            (fm.tvs.getD k dfltFTv).domain.getD j dfltId) ∧
        (((fm'.tvs.getD k dfltFTv).domain.getD j dfltId).parallelType =
            ParallelType.Group →
          ((fm.tvs.getD k dfltFTv).domain.getD j dfltId).parallelType =
            ParallelType.Group)) := by
  subst heq
  rw [inliner_notUnrolled_tvs rp fm reductionId referenceId rids cins couts dums vios
    ref hnu href]
  refine ⟨by simp, ?_⟩
  intro k hk
  have hgd : (fm.tvs.map (fun tv =>
      { tv with domain := (propagateTypesOnto ref.domain
          (allParallelTypesExceptModel [ParallelType.Unroll, ParallelType.Vectorize,
            ParallelType.MisalignedVectorize]) tv.domain) })).getD k dfltFTv =
      { fm.tvs.getD k dfltFTv with domain := (propagateTypesOnto ref.domain
          (allParallelTypesExceptModel [ParallelType.Unroll, ParallelType.Vectorize,
            ParallelType.MisalignedVectorize]) (fm.tvs.getD k dfltFTv).domain) } := by
    rw [List.getD_eq_getElem _ dfltFTv (by simpa using hk)]
    rw [List.getElem_map]
    rw [← List.getD_eq_getElem fm.tvs dfltFTv hk]
  rw [hgd]
  refine ⟨rfl, propagateTypesOnto_length _ _ _, ?_⟩
  intro j hj
  have homem : fm.tvs.getD k dfltFTv ∈ fm.tvs := by
    rw [List.getD_eq_getElem fm.tvs dfltFTv hk]
    exact List.getElem_mem hk
  have hnth := propagateTypesOnto_getD ref.domain
    (allParallelTypesExceptModel [ParallelType.Unroll, ParallelType.Vectorize,
      ParallelType.MisalignedVectorize]) (fm.tvs.getD k dfltFTv).domain j hj
  rcases hres : ref.domain.get? j with _ | r
  · rw [hres] at hnth
    simp only at hnth
    rw [hnth]
    exact ⟨fun _ => rfl, fun _ => rfl, fun _ => rfl, fun h => h⟩
  · rw [hres] at hnth
    simp only at hnth
    obtain ⟨hjlt, hget⟩ := List.get?_eq_some.mp hres
    have hrmem : r ∈ ref.domain := by
      rw [← hget]
      exact List.get_mem ref.domain j hjlt
    have hrj : ref.domain.getD j dfltId = r := by
      rw [List.getD_eq_getElem ref.domain dfltId hjlt, ← hget]
      simp [List.get_eq_getElem]
    by_cases hc : ((allParallelTypesExceptModel [ParallelType.Unroll,
        ParallelType.Vectorize, ParallelType.MisalignedVectorize]).contains
          r.parallelType) = true
    · rw [if_pos hc] at hnth
      rw [hnth]
      refine ⟨?_, ?_, ?_, ?_⟩
      · intro hul
        have hali2 := hali (fm.tvs.getD k dfltFTv) homem j hjlt hul
        rw [hrj] at hali2
        rw [exceptUVM_no_unrolled r.parallelType hc] at hali2
        cases hali2
      · intro hul
        simp only at hul
        rw [exceptUVM_no_unrolled r.parallelType hc] at hul
        cases hul
      · intro hser
        simp only at hser
        exact absurd hser (exceptUVM_no_serial r.parallelType hc)
      · intro hgrp
        simp only at hgrp
        exact absurd hgrp (hng r hrmem)
    · rw [if_neg hc] at hnth
      rw [hnth]
      exact ⟨fun _ => rfl, fun _ => rfl, fun _ => rfl, fun h => h⟩

end ReductionUtils

namespace ReductionUtils

theorem recUses_inner_mem (g : PGraph) (cl : List (List Nat)) (acc : List Nat) (u : Nat) :
    u ∈ cl.foldl (fun acc chain =>
      if !(chainSurvives g chain) then acc
      else match chain.get? 1 with
        | none => acc
        | some use => if acc.contains use then acc else acc ++ [use]) acc ↔
    u ∈ acc ∨ ∃ c ∈ cl, chainSurvives g c = true ∧ c.get? 1 = some u := by
  induction cl generalizing acc with
  | nil => simp
  | cons c0 cs ih =>
    simp only [List.foldl_cons]
    rw [ih]
    have hstep : u ∈ (if !(chainSurvives g c0) then acc
        else match c0.get? 1 with
          | none => acc
          | some use => if acc.contains use then acc else acc ++ [use]) ↔
        u ∈ acc ∨ (chainSurvives g c0 = true ∧ c0.get? 1 = some u) := by
      by_cases hs : chainSurvives g c0 = true
      · rw [hs]
        simp only [Bool.not_true, Bool.false_eq_true, if_false]
        split
        · next hget =>
            rw [hget]
            simp
        · next use hget =>
          rw [hget]
          simp only [hs, true_and]
          by_cases hmem : acc.contains use = true
          · rw [if_pos hmem]
            simp only [List.contains_eq_any_beq, List.any_eq_true, beq_iff_eq] at hmem
            rcases hmem with ⟨x, hx, hxe⟩
            subst hxe
            constructor
            · exact Or.inl
            · rintro (h | h)
              · exact h
              · rw [Option.some_inj] at h
                subst h
                exact hx
          · rw [if_neg (by simpa using hmem)]
            rw [List.mem_append]
            simp [Option.some_inj, eq_comm]
      · rw [Bool.not_eq_true] at hs
        rw [hs]
        simp [hs]
    rw [hstep]
    constructor
    · rintro ((h | h) | ⟨c, hc, hf⟩)
      · exact Or.inl h
      · exact Or.inr ⟨c0, List.mem_cons_self c0 cs, h⟩
      · exact Or.inr ⟨c, List.mem_cons_of_mem c0 hc, hf⟩
    · rintro (h | ⟨c, hc, hf⟩)
      · exact Or.inl (Or.inl h)
      · rcases List.mem_cons.mp hc with h1 | h2
        · subst h1
          exact Or.inl (Or.inr hf)
        · exact Or.inr ⟨c, h2, hf⟩

theorem recUses_inner_nodup (g : PGraph) (cl : List (List Nat)) (acc : List Nat)
    (hnd : acc.Nodup) :
    (cl.foldl (fun acc chain =>
      if !(chainSurvives g chain) then acc
      else match chain.get? 1 with
        | none => acc
        | some use => if acc.contains use then acc else acc ++ [use]) acc).Nodup := by
  induction cl generalizing acc with
  | nil => simpa
  | cons c0 cs ih =>
    simp only [List.foldl_cons]
    apply ih
    by_cases hs : chainSurvives g c0 = true
    · rw [hs]
      simp only [Bool.not_true, Bool.false_eq_true, if_false]
      split
      · exact hnd
      · next use hget =>
        by_cases hmem : acc.contains use = true
        · rw [if_pos hmem]
          exact hnd
        · rw [if_neg (by simpa using hmem)]
          rw [List.nodup_append]
          refine ⟨hnd, List.nodup_singleton use, ?_⟩
          intro a ha hb
          rw [List.mem_singleton] at hb
          subst hb
          apply hmem
          simp only [List.contains_eq_any_beq, List.any_eq_true, beq_iff_eq]
          exact ⟨a, ha, rfl⟩
    · rw [Bool.not_eq_true] at hs
      rw [hs]
      simpa using hnd

theorem recordUses_mem (g : PGraph) (resolution_points : List Nat)
    (chains : Nat → Nat → List (List Nat)) (buffer : Nat) (u : Nat) :
    u ∈ recordUses g resolution_points chains buffer ↔
    ∃ rpoint ∈ resolution_points, ∃ c ∈ chains buffer rpoint,
      chainSurvives g c = true ∧ c.get? 1 = some u := by
  unfold recordUses
  have houter : ∀ (rps : List Nat) (acc : List Nat),
      u ∈ rps.foldl (fun acc rpoint =>
        (chains buffer rpoint).foldl (fun acc chain =>
          if !(chainSurvives g chain) then acc
          else match chain.get? 1 with
            | none => acc
            | some use => if acc.contains use then acc else acc ++ [use]) acc) acc ↔
      u ∈ acc ∨ ∃ rpoint ∈ rps, ∃ c ∈ chains buffer rpoint,
        chainSurvives g c = true ∧ c.get? 1 = some u := by
    intro rps
    induction rps with
    | nil => simp
    | cons r0 rs ih =>
      intro acc
      simp only [List.foldl_cons]
      rw [ih]
      rw [recUses_inner_mem]
      constructor
      · rintro ((h | ⟨c, hc, hf⟩) | ⟨rp2, hrp2, hf⟩)
        · exact Or.inl h
        · exact Or.inr ⟨r0, List.mem_cons_self r0 rs, c, hc, hf⟩
        · exact Or.inr ⟨rp2, List.mem_cons_of_mem r0 hrp2, hf⟩
      · rintro (h | ⟨rp2, hrp2, hf⟩)
        · exact Or.inl (Or.inl h)
        · rcases List.mem_cons.mp hrp2 with h1 | h2
          · subst h1
            exact Or.inl (Or.inr hf)
          · exact Or.inr ⟨rp2, h2, hf⟩
  rw [houter]
  simp

theorem recordUses_nodup (g : PGraph) (resolution_points : List Nat)
    (chains : Nat → Nat → List (List Nat)) (buffer : Nat) :
    (recordUses g resolution_points chains buffer).Nodup := by
  unfold recordUses
  have houter : ∀ (rps : List Nat) (acc : List Nat), acc.Nodup →
      (rps.foldl (fun acc rpoint =>
        (chains buffer rpoint).foldl (fun acc chain =>
          if !(chainSurvives g chain) then acc
          else match chain.get? 1 with
            | none => acc
            | some use => if acc.contains use then acc else acc ++ [use]) acc) acc).Nodup := by
    intro rps
    induction rps with
    | nil => intro acc h; simpa
    | cons r0 rs ih =>
      intro acc h
      simp only [List.foldl_cons]
      exact ih _ (recUses_inner_nodup g _ acc h)
  exact houter resolution_points [] (List.nodup_nil)

end ReductionUtils

namespace ReductionUtils

theorem projectedNewNodes_succ (bi : List Nat) (red : Bool) (buf base k : Nat) :
    projectedNewNodes bi red buf base (k + 1) =
      ({ nid := base, hasReduction := red, defined := true, inputs := bi } : PNode) ::
      ({ nid := base + 1, hasReduction := false, defined := true,
         inputs := [base, buf] } : PNode) ::
      projectedNewNodes bi red buf (base + 2) k := by
  unfold projectedNewNodes
  rw [List.range_succ_eq_map]
  rw [List.flatMap_cons]
  rw [List.flatMap_map]
  have e0 : base + 2 * 0 = base := by omega
  have e1 : base + 2 * 0 + 1 = base + 1 := by omega
  rw [e0, e1]
  show ({ nid := base, hasReduction := red, defined := true, inputs := bi } : PNode) ::
      ({ nid := base + 1, hasReduction := false, defined := true,
         inputs := [base, buf] } : PNode) ::
      ((List.range k).flatMap fun a =>
        [({ nid := base + 2 * a.succ, hasReduction := red, defined := true,
            inputs := bi } : PNode),
         { nid := base + 2 * a.succ + 1, hasReduction := false, defined := true,
           inputs := [base + 2 * a.succ, buf] }]) = _
  congr 2
  apply List.flatMap_congr
  intro x hx
  have h1 : base + 2 * x.succ = base + 2 + 2 * x := by omega
  rw [h1]

theorem projectedDummyIds_succ (base k : Nat) :
    projectedDummyIds base (k + 1) =
      (base + 1) :: projectedDummyIds (base + 2) k := by
  unfold projectedDummyIds
  rw [List.range_succ_eq_map]
  rw [List.map_cons, List.map_map]
  have e0 : base + 2 * 0 + 1 = base + 1 := by omega
  rw [e0]
  congr 1
  apply List.map_congr_left
  intro x hx
  simp only [Function.comp_apply]
  omega

end ReductionUtils

namespace ReductionUtils

theorem pnode_find_pres (nodes extra : List PNode) (f : PNode → PNode)
    (hf : ∀ n, (f n).nid = n.nid) (i : Nat) (w : PNode)
    (hw : nodes.find? (fun n => n.nid == i) = some w) :
    (nodes.map f ++ extra).find? (fun n => n.nid == i) = some (f w) := by
  rw [List.find?_append]
  have h1 : (nodes.map f).find? (fun n => n.nid == i) = some (f w) := by
    rw [List.find?_map]
    have hcomp : (fun n => PNode.nid n == i) ∘ f = fun n => n.nid == i := by
      funext n
      simp [Function.comp, hf]
    rw [hcomp, hw]
    rfl
  rw [h1]
  rfl

theorem rewriteUseNode_compose (buffer u0 : Nat) (rest : List Nat) (next : Nat)
    (hu0nr : u0 ∉ rest) (n : PNode) :
    rewriteUseNode buffer rest (next + 2)
      (if n.nid == u0 then
        { n with inputs := (n.inputs.map (fun k => if k == buffer then next else k)) }
       else n) =
    rewriteUseNode buffer (u0 :: rest) next n := by
  unfold rewriteUseNode
  by_cases h0 : n.nid = u0
  · subst h0
    have hc1 : rest.contains n.nid = false := by
      rw [← Bool.not_eq_true]
      intro hc
      exact hu0nr (by simpa using hc)
    simp only [beq_self_eq_true, if_true, hc1, Bool.false_eq_true, if_false,
      List.contains_cons, beq_self_eq_true, Bool.true_or, if_true,
      List.indexOf_cons_self, Nat.mul_zero, Nat.add_zero]
  · have hif : (n.nid == u0) = false := by simp [h0]
    rw [hif]
    simp only [Bool.false_eq_true, if_false]
    have hcc : ((u0 :: rest).contains n.nid) = (rest.contains n.nid) := by
      simp only [List.contains_cons]
      rw [show (n.nid == u0) = false from by simp [h0]]
      simp
    rw [hcc]
    by_cases hc : rest.contains n.nid = true
    · rw [if_pos hc, if_pos hc]
      have hidx : (u0 :: rest).indexOf n.nid = rest.indexOf n.nid + 1 :=
        List.indexOf_cons_ne rest (Ne.symm h0)
      rw [hidx]
      have harith : next + 2 * (rest.indexOf n.nid + 1) =
          next + 2 + 2 * rest.indexOf n.nid := by omega
      rw [harith]
    · rw [if_neg hc, if_neg hc]

end ReductionUtils

namespace ReductionUtils

set_option maxHeartbeats 1000000 in
theorem projectUses_closed (buffer : Nat) : ∀ (uses : List Nat) (g : PGraph) (bn : PNode),
    findNode g buffer = some bn →
    (∀ n ∈ g.nodes, n.nid < g.nextId) →
    (∀ u ∈ uses, useDefined g u = true) →
    uses.Nodup → buffer ∉ uses →
    projectUses g buffer uses = Except.ok
      (⟨g.nodes.map (rewriteUseNode buffer uses g.nextId) ++
          projectedNewNodes bn.inputs bn.hasReduction buffer g.nextId uses.length,
        g.nextId + 2 * uses.length⟩,
       projectedDummyIds g.nextId uses.length) := by
  intro uses
  induction uses with
  | nil =>
    intro g bn hbuf hfresh hdef hnd hnb
    have hmap : g.nodes.map (rewriteUseNode buffer [] g.nextId) = g.nodes := by
      have h1 : ∀ n ∈ g.nodes, rewriteUseNode buffer [] g.nextId n = id n :=
        fun n _ => by simp [rewriteUseNode]
      rw [List.map_congr_left h1, List.map_id]
    unfold projectUses
    rw [hmap]
    have h2 : projectedNewNodes bn.inputs bn.hasReduction buffer g.nextId 0 = [] := rfl
    have h3 : projectedDummyIds g.nextId 0 = [] := rfl
    simp only [List.length_nil, h2, h3, List.append_nil, Nat.mul_zero, Nat.add_zero]
  | cons u0 rest ih =>
    intro g bn hbuf hfresh hdef hnd hnb
    obtain ⟨nodes, next⟩ := g
    have hu0d := hdef u0 (List.mem_cons_self u0 rest)
    unfold useDefined at hu0d
    cases hu0 : findNode ⟨nodes, next⟩ u0 with
    | none =>
      rw [hu0] at hu0d
      cases hu0d
    | some un =>
      rw [hu0] at hu0d
      have hbn_nid : bn.nid = buffer := by
        have := List.find?_some hbuf
        simpa using this
      have hun_nid : un.nid = u0 := by
        have := List.find?_some hu0
        simpa using this
      have hbn_mem : bn ∈ nodes := List.mem_of_find?_eq_some hbuf
      have hun_mem : un ∈ nodes := List.mem_of_find?_eq_some hu0
      have hrest_lt : ∀ u ∈ rest, u < next := by
        intro u hu
        have hd := hdef u (List.mem_cons_of_mem u0 hu)
        unfold useDefined at hd
        cases hw : findNode ⟨nodes, next⟩ u with
        | none =>
          rw [hw] at hd
          cases hd
        | some w =>
          have hw_nid : w.nid = u := by simpa using List.find?_some hw
          have hw_mem : w ∈ nodes := List.mem_of_find?_eq_some hw
          rw [← hw_nid]
          exact hfresh w hw_mem
      have hne : buffer ≠ u0 := fun h => hnb (h ▸ List.mem_cons_self u0 rest)
      have hu0nr : u0 ∉ rest := (List.nodup_cons.mp hnd).1
      have hu0d2 : un.defined = true := hu0d
      unfold projectUses
      rw [hu0, hbuf]
      dsimp only
      rw [hu0d2]
      simp only [Bool.not_true, Bool.false_eq_true, if_false]
      have hih := ih ⟨(nodes.map (fun n =>
          if n.nid == u0 then
            { n with inputs := (n.inputs.map
                (fun k => if k == buffer then next else k)) }
          else n)) ++
          [{ nid := next, hasReduction := bn.hasReduction, defined := true,
             inputs := bn.inputs },
           { nid := next + 1, hasReduction := false, defined := true,
             inputs := [next, buffer] }], next + 2⟩ bn ?hbuf2 ?hfresh2 ?hdef2
        (List.nodup_cons.mp hnd).2 (fun hc => hnb (List.mem_cons_of_mem u0 hc))
      case hbuf2 =>
        have hfbn : (if bn.nid == u0 then
            ({ bn with inputs := (bn.inputs.map
                (fun k => if k == buffer then next else k)) } : PNode)
            else bn) = bn := by
          rw [if_neg]
          rw [hbn_nid]
          simp [hne]
        exact (pnode_find_pres nodes
          [{ nid := next, hasReduction := bn.hasReduction, defined := true,
             inputs := bn.inputs },
           { nid := next + 1, hasReduction := false, defined := true,
             inputs := [next, buffer] }]
          (fun n => if n.nid == u0 then
            { n with inputs := (n.inputs.map
                (fun k => if k == buffer then next else k)) }
            else n)
          (fun n => by
            dsimp only
            by_cases h : n.nid = u0
            · rw [if_pos (by simp [h])]
            · rw [if_neg (by simp [h])]) buffer bn hbuf).trans
          (congrArg some hfbn)
      case hfresh2 =>
        intro n hn
        show n.nid < next + 2
        rcases List.mem_append.mp hn with h1 | h2
        · rcases List.mem_map.mp h1 with ⟨m, hm, heq⟩
          have hnm : n.nid = m.nid := by
            rw [← heq]
            by_cases h : m.nid = u0
            · rw [if_pos (by simp [h])]
            · rw [if_neg (by simp [h])]
          rw [hnm]
          have hmlt := hfresh m hm
          have hmlt2 : m.nid < next := hmlt
          omega
        · simp only [List.mem_cons, List.mem_singleton] at h2
          rcases h2 with h2 | h2 | h2
          · subst h2
            show next < next + 2
            omega
          · subst h2
            show next + 1 < next + 2
            omega
          · cases h2
      case hdef2 =>
        intro u hu
        have hd := hdef u (List.mem_cons_of_mem u0 hu)
        unfold useDefined at hd ⊢
        cases hw : findNode ⟨nodes, next⟩ u with
        | none =>
          rw [hw] at hd
          cases hd
        | some w =>
          rw [hw] at hd
          have hfind2 : findNode ⟨(nodes.map (fun n =>
              if n.nid == u0 then
                { n with inputs := (n.inputs.map
                    (fun k => if k == buffer then next else k)) }
              else n)) ++
              [{ nid := next, hasReduction := bn.hasReduction, defined := true,
                 inputs := bn.inputs },
               { nid := next + 1, hasReduction := false, defined := true,
                 inputs := [next, buffer] }], next + 2⟩ u =
              some ((fun n => if n.nid == u0 then
                { n with inputs := (n.inputs.map
                    (fun k => if k == buffer then next else k)) }
                else n) w) :=
            pnode_find_pres nodes _ _ (fun n => by
              by_cases h : n.nid = u0
              · rw [if_pos (by simp [h])]
              · rw [if_neg (by simp [h])]) u w hw
          have hd2 : w.defined = true := hd
          rw [hfind2]
          show ((if w.nid == u0 then
              ({ w with inputs := (w.inputs.map
                  (fun k => if k == buffer then next else k)) } : PNode)
              else w)).defined = true
          by_cases h : w.nid = u0
          · rw [if_pos (by simp [h])]
            exact hd2
          · rw [if_neg (by simp [h])]
            exact hd2
      rw [hih]
      have hcomp : ((nodes.map (fun n =>
          if n.nid == u0 then
            { n with inputs := (n.inputs.map
                (fun k => if k == buffer then next else k)) }
          else n))).map (rewriteUseNode buffer rest (next + 2)) =
          nodes.map (rewriteUseNode buffer (u0 :: rest) next) := by
        rw [List.map_map]
        apply List.map_congr_left
        intro n hn
        exact rewriteUseNode_compose buffer u0 rest next hu0nr n
      have hrep : rewriteUseNode buffer rest (next + 2)
          ({ nid := next, hasReduction := bn.hasReduction, defined := true,
             inputs := bn.inputs } : PNode) =
          { nid := next, hasReduction := bn.hasReduction, defined := true,
            inputs := bn.inputs } := by
        unfold rewriteUseNode
        rw [if_neg]
        intro hc
        have hmem2 : (next : Nat) ∈ rest := by simpa using hc
        have := hrest_lt next hmem2
        omega
      have hdum : rewriteUseNode buffer rest (next + 2)
          ({ nid := next + 1, hasReduction := false, defined := true,
             inputs := [next, buffer] } : PNode) =
          { nid := next + 1, hasReduction := false, defined := true,
            inputs := [next, buffer] } := by
        unfold rewriteUseNode
        rw [if_neg]
        intro hc
        have hmem2 : (next + 1 : Nat) ∈ rest := by simpa using hc
        have := hrest_lt (next + 1) hmem2
        omega
      rw [List.map_append, hcomp]
      rw [List.map_cons, List.map_cons, List.map_nil, hrep, hdum]
      rw [List.length_cons]
      rw [projectedNewNodes_succ, projectedDummyIds_succ]
      rw [List.append_assoc]
      have harith : next + 2 + 2 * rest.length = next + 2 * (rest.length + 1) := by omega
      rw [harith]
      rfl

end ReductionUtils

namespace ReductionUtils

/-- C8: per persistent projectable buffer, `projectPersistentBuffers`
records exactly the second nodes of the reduction-free dependency
chains from the buffer to its resolution points, each once
(deduplicated across chains and resolution points); projecting the
recorded uses appends, per use, exactly one recomputed duplicate of the
buffer and one scaffold output summing the duplicate with the buffer,
rewrites each use's defining expression to consume its duplicate in
place of the buffer, and returns the scaffold identities as the dummy
outputs. -/
theorem claim_C8 (g : PGraph) (buffer : Nat) (resolution_points : List Nat)
    (chains : Nat → Nat → List (List Nat)) (bn : PNode)
    (hbuf : findNode g buffer = some bn)
    (hfresh : ∀ n ∈ g.nodes, n.nid < g.nextId)
    (hdef : ∀ u ∈ recordUses g resolution_points chains buffer, useDefined g u = true)
    (hnb : buffer ∉ recordUses g resolution_points chains buffer) :
    (∀ u, u ∈ recordUses g resolution_points chains buffer ↔
      ∃ rpoint ∈ resolution_points, ∃ c ∈ chains buffer rpoint,
        chainSurvives g c = true ∧ c.get? 1 = some u) ∧
    (recordUses g resolution_points chains buffer).Nodup ∧
    projectUses g buffer (recordUses g resolution_points chains buffer) = Except.ok
      (⟨g.nodes.map (rewriteUseNode buffer (recordUses g resolution_points chains buffer)
          g.nextId) ++
        projectedNewNodes bn.inputs bn.hasReduction buffer g.nextId
          (recordUses g resolution_points chains buffer).length,
        g.nextId + 2 * (recordUses g resolution_points chains buffer).length⟩,
       projectedDummyIds g.nextId (recordUses g resolution_points chains buffer).length) :=
  ⟨fun u => recordUses_mem g resolution_points chains buffer u,
   recordUses_nodup g resolution_points chains buffer,
   projectUses_closed buffer (recordUses g resolution_points chains buffer) g bn hbuf
     hfresh hdef (recordUses_nodup g resolution_points chains buffer) hnb⟩

/-- C8 witness: a buffer with two resolution points, one chain passing
through a reduction, yields one duplicate and one scaffold output. -/
theorem claim_C8_witness :
    projectUses pgC8 0 (recordUses pgC8 [3, 4] chainsC8 0) = Except.ok
      (⟨pgC8.nodes.map (rewriteUseNode 0 (recordUses pgC8 [3, 4] chainsC8 0)
          pgC8.nextId) ++
        projectedNewNodes pnC8buf.inputs pnC8buf.hasReduction 0 pgC8.nextId
          (recordUses pgC8 [3, 4] chainsC8 0).length,
        pgC8.nextId + 2 * (recordUses pgC8 [3, 4] chainsC8 0).length⟩,
       projectedDummyIds pgC8.nextId (recordUses pgC8 [3, 4] chainsC8 0).length) :=
  (claim_C8 pgC8 0 [3, 4] chainsC8 pnC8buf (by decide) (by decide) (by decide)
    (by decide)).2.2

/-- C1 witness at a concrete two-axis sorted domain. -/
theorem claim_C1_witness :
    stdSortSpec [cexIterBlock, cexIterSym] [cexIterBlock, cexIterSym] ∧ (0 : Nat) < 1 :=
  ⟨by decide, claim_C1 [cexIterBlock, cexIterSym] [cexIterBlock, cexIterSym]
    (by decide) 1 0 (by decide) (by decide) (by decide)⟩

/-- C2 witness at a concrete one-axis domain. -/
theorem claim_C2_witness :
    (∃ m, computeReorderMap [cexIterSym] [cexIterSym] = some m ∧
      m.length = [cexIterSym].length ∧ m.Nodup ∧
      (∀ k, k ∈ m → k < [cexIterSym].length) ∧
      (∀ k, k < [cexIterSym].length → k ∈ m) ∧
      (reorderTv ⟨[cexIterSym]⟩ (((List.range [cexIterSym].length).zip m).map
        (fun q => ((q.1 : Int), (q.2 : Int))))).domain = [cexIterSym] ∧
      List.Perm (reorderTv ⟨[cexIterSym]⟩ (((List.range [cexIterSym].length).zip m).map
        (fun q => ((q.1 : Int), (q.2 : Int))))).domain [cexIterSym]) ∧
    (∀ old2 s2 : List IterDomain,
      computeReorderMap old2 s2 = none ↔ ∃ x ∈ old2, x ∉ s2) :=
  claim_C2 [cexIterSym] [cexIterSym] (by decide) (by decide)

/-- C4 witness: inner-reduction vectorization on a non-fastest-dimension
reduction is rejected. -/
theorem claim_C4_witness :
    (rpC4.fastest_dim = false ∧ rpC4.vectorize_inner_reduction = true) ∧
    (∃ msg, scheduleReductionTVModel rpC4 ⟨[dfltId, dfltId]⟩ true = Except.error msg) :=
  ⟨⟨rfl, rfl⟩, claim_C4 rpC4 ⟨[dfltId, dfltId]⟩ true
    (Or.inr (Or.inr (Or.inl ⟨rfl, rfl⟩)))⟩

/-- C7 witness at a concrete one-view list. -/
theorem claim_C7_witness :
    (∀ tv : FTv, isGridAllreduce tv = true ↔ gridAllreduceSpec tv) ∧
    (allreduceGroupStep dfltFTv [dfltFTv]).length = [dfltFTv].length ∧
    (∀ k, k < [dfltFTv].length →
      ((([dfltFTv].getD k dfltFTv).tvId ≠ dfltFTv.tvId ∧
          gridAllreduceSpec ([dfltFTv].getD k dfltFTv)) →
        (allreduceGroupStep dfltFTv [dfltFTv]).getD k dfltFTv =
          { [dfltFTv].getD k dfltFTv with domain :=
              (propagateTypesOnto dfltFTv.domain [ParallelType.Group]
                ([dfltFTv].getD k dfltFTv).domain) }) ∧
      (¬(([dfltFTv].getD k dfltFTv).tvId ≠ dfltFTv.tvId ∧
          gridAllreduceSpec ([dfltFTv].getD k dfltFTv)) →
        (allreduceGroupStep dfltFTv [dfltFTv]).getD k dfltFTv =
          [dfltFTv].getD k dfltFTv)) :=
  claim_C7 dfltFTv [dfltFTv] (by decide)

/-- C10 witness at a one-view fusion whose reference has no axes. -/
theorem claim_C10_witness :
    (multiReductionInlinerModel rpBase ⟨[ftvC10], []⟩ 3 3 [] [] [] [] []).tvs.length =
      (⟨[ftvC10], []⟩ : FusionModel).tvs.length :=
  (claim_C10 rpBase ⟨[ftvC10], []⟩ 3 3 [] [] [] [] [] ftvC10
    (multiReductionInlinerModel rpBase ⟨[ftvC10], []⟩ 3 3 [] [] [] [] [])
    (by decide) (by decide) rfl
    (by intro id hid; exact absurd hid (List.not_mem_nil id))
    (by intro tv htv j hj hul; exact absurd hj (by simp [ftvC10]))).1

end ReductionUtils
